import Mathlib

/-!
# Verification of `pymoku/dataparser.py`

A shallow embedding of the LI data-file format engine of the pymoku
repository (`src/pymoku/dataparser.py`): the binary layout-string language,
the per-channel processing-expression language, the stateful streaming
bitstream decoder `LIDataParser._parse`, the record processor
`LIDataParser._process_records`, and the `LIDataFileWriter` /
`LIDataFileReader` byte-level header codec.

Modelling conventions:
* Python byte strings are `List Nat` (each element a byte value).
* Python text strings are `List Char`.
* The decoder's residual bit-cache (a Python string of '0'/'1' characters)
  is a `List Bool`.
* Python `int` is `Int`, Python `float` is modelled by its exact rational
  value (`Rat`); every IEEE-754 single or double value is exactly
  representable as a rational, so decoding bit patterns to `Rat` is exact.
  IEEE *rounding* of arithmetic results is not modelled: the arithmetic
  evaluated by the theorems below is exact in double precision.
  Non-finite IEEE values (infinities, NaNs) are carried opaquely as the
  `PVal.special` constructor, tagged with their bit pattern.
* Python exceptions are the `Except` monad with error codes naming the
  exception raised by the corresponding line of the source.
* The source's unbounded `while True` loop is modelled with fuel plus a
  distinguished `noFuel` marker; the fuel supplied is proven sufficient
  whenever the source loop terminates on the states the theorems touch
  (every field width of the source's layouts is at least 1, which makes
  each loop iteration consume residual bits).
-/

namespace Pymoku

/-- Error codes, one per distinct `raise`-site / Python exception class
reachable in the modelled code.  `noFuel` is the fuel-exhaustion marker of
the loop model and corresponds to non-termination of the source loop
(reachable only with zero-width layout fields, which no parsed layout of
width ≥ 1 produces). `unmodeled` marks the two floating-point operations
(`math.sqrt` of a non-square, non-integral powers) whose double-precision
result is irrational and not representable here; no theorem evaluates
them. -/
inductive PErr where
  | bigEndian      -- InvalidFormatException: big-endian spec
  | badBinSpec     -- InvalidFormatException: clause fails the binary regex
  | badLiteral     -- InvalidFormatException: unparseable processing literal
  | floatWidth     -- InvalidFormatException: float bit length not 32/64
  | unknownType    -- InvalidFormatException: 'r' type char at decode
  | unknownOp      -- InvalidFormatException: unrecognized op (unreachable)
  | emptyBinstr    -- InvalidFormatException: empty binary record string
  | valueError     -- ValueError (int() of a bad string)
  | typeError      -- TypeError (binary op with None / float bitwise-and)
  | zeroDiv        -- ZeroDivisionError
  | overflow       -- OverflowError (floor/ceil of a non-finite float)
  | indexError     -- IndexError
  | nameError      -- NameError (chidx unbound for channel >= 2)
  | noFuel         -- model artifact: fuel exhausted
  | unmodeled      -- model artifact: irrational float result
  deriving DecidableEq

/-- Field type characters of the binary layout language. -/
inductive FType where
  | u | s | f | b | p | r
  deriving DecidableEq

/-- One parsed field descriptor `(typ, bitlen, literal)` as produced by
`LIDataParser._parse_binstr`. -/
structure BField where
  typ : FType
  width : Nat
  lit : Option Nat
  deriving DecidableEq

/-- A decoded field value: Python int, float (exact rational), bool, or an
opaque non-finite IEEE value tagged by total bit width and bit pattern. -/
inductive PVal where
  | i (n : Int)
  | q (x : Rat)
  | b (v : Bool)
  | special (w pat : Nat)
  deriving DecidableEq

/-! ## Bit-cache construction (`LIDataParser._parse`, line 483)

`"{:08b}".format(d)[::-1]`: the byte's binary digits, zero-padded to at
least 8, reversed — i.e. least-significant-bit first. -/

/-- Binary digits of `n`, least significant first, no leading zeros; the
first argument is structural fuel (`n` itself always suffices since a
number has at most as many binary digits as its value). -/
def natBitsAux : Nat → Nat → List Bool
  | 0, _ => []
  | _, 0 => []
  | fuel + 1, n => (n % 2 = 1) :: natBitsAux fuel (n / 2)

/-- LSB-first bit list of one byte (`"{:08b}".format(d)[::-1]`):
the binary digits zero-padded (on the most-significant side, hence here
appended) to at least 8 digits. -/
def byteBits (d : Nat) : List Bool :=
  let bits := natBitsAux d d
  bits ++ List.replicate (8 - bits.length) false

/-- Concatenated LSB-first bits of a byte string. -/
def bytesToBits (data : List Nat) : List Bool :=
  (data.map byteBits).flatten

/-- `int(candidate, 2)` for a most-significant-bit-first candidate. -/
def bitsToNat (l : List Bool) : Nat :=
  l.foldl (fun a bit => 2 * a + (if bit then 1 else 0)) 0

/-! ## IEEE-754 bit-pattern decoding (`struct.pack('I'/'Q')` +
`struct.unpack('f'/'d')`, lines 512-521). Finite values decode to their
exact rational value; exponent-all-ones patterns are non-finite. -/

/-- Value of an IEEE-754 bit pattern with `ebits` exponent bits and
`mbits` mantissa bits (`8/23` for single, `11/52` for double). -/
def floatValQ (ebits mbits wTotal : Nat) (n : Nat) : PVal :=
  let m := n % 2 ^ mbits
  let e := n / 2 ^ mbits % 2 ^ ebits
  let sgn := n / 2 ^ (mbits + ebits) % 2 = 1
  if e = 2 ^ ebits - 1 then PVal.special wTotal n
  else
    let bias : Int := 2 ^ (ebits - 1) - 1
    let mag : Rat :=
      if e = 0 then (m : Rat) * (2 : Rat) ^ (1 - bias - (mbits : Int))
      else ((2 ^ mbits + m : Nat) : Rat) * (2 : Rat) ^ ((e : Int) - bias - (mbits : Int))
    PVal.q (if sgn then -mag else mag)

/-! ## Field decoding (`LIDataParser._parse`, lines 496-525)

`candidate` is the first `width` cached bits reversed back to MSB-first
order.  The type dispatch mirrors lines 505-525 of the source; an empty
candidate makes Python's `int('', 2)` raise `ValueError`. -/

/-- Decode one candidate bit string per the field type. -/
def decodeField (t : FType) (w : Nat) (cand : List Bool) : Except PErr PVal :=
  match t with
  | .u | .p =>
    if cand.isEmpty then .error .valueError else .ok (.i (bitsToNat cand))
  | .s =>
    if cand.isEmpty then .error .valueError
    else
      let v : Int := bitsToNat cand
      .ok (.i (if cand.head? = some true then v - 2 ^ w else v))
  | .f =>
    if w = 32 then .ok (floatValQ 8 23 32 (bitsToNat cand))
    else if w = 64 then .ok (floatValQ 11 52 64 (bitsToNat cand))
    else .error .floatWidth
  | .b => .ok (.b (cand = [true]))
  | .r => .error .unknownType

/-- Python `==` between a decoded value and an integer literal
(`val == lit`, line 527): numeric equality across int/float/bool;
non-finite floats never equal an integer. -/
def pyEqNat (v : PVal) (m : Nat) : Bool :=
  match v with
  | .i n => n = (m : Int)
  | .q x => x = (m : Rat)
  | .b bv => (if bv then 1 else 0 : Nat) = m
  | .special _ _ => false

/-- The guard `not lit or val == lit` of line 527: a missing literal *or a
zero literal* is falsy and accepts any value; otherwise the decoded value
must equal the literal. -/
def litOk (lit : Option Nat) (val : PVal) : Bool :=
  match lit with
  | none => true
  | some l => l = 0 || pyEqNat val l

/-! ## Per-channel decoder state and the `_parse` loop -/

/-- The per-channel mutable state of `LIDataParser`: residual bit cache
`dcache`, remaining field cursor `_currfmt`, in-progress record
`_currecord`, completed raw records `records`, processed records
`processed`. -/
structure ChState where
  dcache : List Bool
  currfmt : List BField
  currecord : List PVal
  records : List (List PVal)
  processed : List (List PVal)
  deriving DecidableEq

/-- Fresh channel state (lines 374-378). -/
def initCh : ChState := ⟨[], [], [], [], []⟩

instance : Inhabited ChState := ⟨initCh⟩

/-- Loop-top record completion (lines 489-494): an exhausted field cursor
restarts the layout and pushes a non-empty in-progress record. -/
def doReset (bf : List BField) (st : ChState) : ChState :=
  if st.currfmt.isEmpty then
    { st with currfmt := bf
            , records := st.records ++ (if st.currecord.isEmpty then [] else [st.currecord])
            , currecord := [] }
  else st

/-- Outcome of one iteration of the `while True` loop. -/
inductive StepRes where
  | cont (st : ChState)
  | stop (st : ChState)
  | err (e : PErr)
  deriving DecidableEq

/-- The body of one loop iteration after the loop-top reset
(lines 496-541): peek the next field; `break` when fewer cached bits than
its width remain; decode; on a truthy-literal mismatch drop the partial
record, clear the cursor and drop one byte (8 bits) from the cache;
otherwise append the value (unless padding) and consume the field's bits. -/
def stepCore (st : ChState) : StepRes :=
  match st.currfmt with
  | [] => .err .indexError
  | fd :: rest =>
    if st.dcache.length < fd.width then .stop st
    else
      match decodeField fd.typ fd.width ((st.dcache.take fd.width).reverse) with
      | .error e => .err e
      | .ok val =>
        if litOk fd.lit val then
          .cont { st with
                  currecord := if fd.typ = .p then st.currecord else st.currecord ++ [val]
                , currfmt := rest
                , dcache := st.dcache.drop fd.width }
        else
          .cont { st with currecord := [], currfmt := [], dcache := st.dcache.drop 8 }

/-- One full iteration of the `while True` loop of `_parse`
(lines 488-541): loop-top reset, then the loop body. -/
def parseStep (bf : List BField) (st : ChState) : StepRes :=
  stepCore (doReset bf st)

/-- The `while True` loop, with fuel. -/
def parseLoop (bf : List BField) : Nat → ChState → Except PErr ChState
  | 0, _ => .error .noFuel
  | fuel + 1, st =>
    match parseStep bf st with
    | .stop st' => .ok st'
    | .err e => .error e
    | .cont st' => parseLoop bf fuel st'

/-- The loop run with canonical fuel `|dcache| + 1`, sufficient whenever
every field width is at least 1 (each continuing iteration then consumes
at least one cached bit). -/
def runLoop (bf : List BField) (st : ChState) : Except PErr ChState :=
  parseLoop bf (st.dcache.length + 1) st

/-- Lines 544-545 after the loop: push a non-empty in-progress record if
the cursor is exhausted.  (The loop can only break with a non-empty
cursor, so this never fires; it is retained for faithfulness.) -/
def afterLoop (st : ChState) : ChState :=
  if !st.currecord.isEmpty && st.currfmt.isEmpty then
    { st with records := st.records ++ [st.currecord] }
  else st

/-- The per-channel core of `LIDataParser._parse`: append the new data's
LSB-first bits to the residual cache (line 483) and run the loop. -/
def chFeed (bf : List BField) (data : List Nat) (st : ChState) : Except PErr ChState :=
  (runLoop bf { st with dcache := st.dcache ++ bytesToBits data }).map afterLoop

/-- Channel-number to state-index translation (lines 475-478); a channel
number ≥ 2 with two active channels leaves `chidx` unbound and the later
uses raise `NameError`. -/
def chidxOf (ch nch : Nat) : Option Nat :=
  if ch = 0 || nch = 1 then some 0
  else if ch = 1 then some 1
  else none

/-- `LIDataParser._parse(data, ch)` on the list of per-channel states. -/
def li_parse (bf : List BField) (data : List Nat) (ch : Nat)
    (sts : List ChState) : Except PErr (List ChState) :=
  match chidxOf ch sts.length with
  | none => .error .nameError
  | some i => (chFeed bf data (sts.getD i initCh)).map (fun s => sts.set i s)

/-! ## The layout-string language (`LIDataParser._parse_binstr`,
lines 301-315)

Each `:`-separated clause is searched (not anchored) for the first match
of the regex `([usfbrp])([0-9]+),*([0-9a-zA-Z]+)*`: a type character
immediately followed by at least one digit; the greedy digit run is the
bit width; any following commas are skipped; the following alphanumeric
run (possibly empty) is the literal, parsed by `int(lit, 0)`. -/

def isTypeChar (c : Char) : Bool :=
  c = 'u' || c = 's' || c = 'f' || c = 'b' || c = 'r' || c = 'p'

def isDigitCh (c : Char) : Bool := '0' ≤ c && c ≤ '9'

def isAlnumCh (c : Char) : Bool :=
  isDigitCh c || ('a' ≤ c && c ≤ 'z') || ('A' ≤ c && c ≤ 'Z')

def digitVal (c : Char) : Nat := c.toNat - '0'.toNat

/-- `int(ds)` of a nonempty decimal digit run. -/
def digitsToNat (l : List Char) : Nat :=
  l.foldl (fun a c => 10 * a + digitVal c) 0

/-- Leftmost match of `([usfbrp])([0-9]+),*([0-9a-zA-Z]+)*` in a clause:
`(type char, digit run, literal run)`. -/
def binMatch : List Char → Option (Char × List Char × List Char)
  | [] => none
  | c :: rest =>
    if isTypeChar c && (match rest with | d :: _ => isDigitCh d | [] => false) then
      let ds := rest.takeWhile isDigitCh
      let lit := ((rest.dropWhile isDigitCh).dropWhile (fun x => x = ',')).takeWhile isAlnumCh
      some (c, ds, lit)
    else binMatch rest

/-- Python `str.split(sep)`: always at least one (possibly empty) part. -/
def splitSep (sep : Char) : List Char → List (List Char)
  | [] => [[]]
  | c :: rest =>
    if c = sep then [] :: splitSep sep rest
    else
      match splitSep sep rest with
      | h :: t => (c :: h) :: t
      | [] => [[c]]

/-- Sequential effectful map over `Except`, the shape of every Python
`for`-loop in the source that builds a list and lets exceptions
propagate: structural, first error aborts. -/
def exMapM {ε α β : Type} (f : α → Except ε β) : List α → Except ε (List β)
  | [] => .ok []
  | x :: xs =>
    match f x with
    | .error e => .error e
    | .ok y =>
      match exMapM f xs with
      | .error e => .error e
      | .ok ys => .ok (y :: ys)

/-- Hex digit value. -/
def hexVal? (c : Char) : Option Nat :=
  if isDigitCh c then some (digitVal c)
  else if 'a' ≤ c ∧ c ≤ 'f' then some (10 + (c.toNat - 'a'.toNat))
  else if 'A' ≤ c ∧ c ≤ 'F' then some (10 + (c.toNat - 'A'.toNat))
  else none

/-- Digit run in a given base: `none` if empty or any character is not a
digit of the base. -/
def parseDigits (base : Nat) (l : List Char) : Option Nat :=
  match l with
  | [] => none
  | _ =>
    l.foldl (fun acc c =>
      match acc, hexVal? c with
      | some a, some d => if d < base then some (base * a + d) else none
      | _, _ => none) (some 0)

/-- Python 2 `int(s, 0)` on an unsigned token: `0x`/`0X` hex, `0b`/`0B`
binary, `0o`/`0O` octal, a leading `0` meaning octal, else decimal;
anything else raises `ValueError` (modelled as `none`). -/
def pyIntBase0 : List Char → Option Nat
  | '0' :: 'x' :: r => parseDigits 16 r
  | '0' :: 'X' :: r => parseDigits 16 r
  | '0' :: 'b' :: r => parseDigits 2 r
  | '0' :: 'B' :: r => parseDigits 2 r
  | '0' :: 'o' :: r => parseDigits 8 r
  | '0' :: 'O' :: r => parseDigits 8 r
  | ['0'] => some 0
  | '0' :: r => parseDigits 8 r
  | l => parseDigits 10 l

/-- `int(s, 0)` with an optional sign (used by the processing language;
layout literals are alphanumeric and never signed). -/
def pyIntSigned (l : List Char) : Option Int :=
  match l with
  | '-' :: r => (pyIntBase0 r).map (fun n => -(n : Int))
  | '+' :: r => (pyIntBase0 r).map (fun n => (n : Int))
  | _ => (pyIntBase0 l).map (fun n => (n : Int))

/-- Map a matched type character to `FType` (total on the regex's
character class; the default branch is unreachable). -/
def typOfChar (c : Char) : FType :=
  if c = 'u' then .u
  else if c = 's' then .s
  else if c = 'f' then .f
  else if c = 'b' then .b
  else if c = 'p' then .p
  else .r

/-- One clause of `_parse_binstr` (lines 309-313): no regex match raises
`IndexError`, caught and re-raised as `InvalidFormatException`; a
non-empty literal that `int(lit, 0)` rejects raises an uncaught
`ValueError`. -/
def parseBinClause (clause : List Char) : Except PErr BField :=
  match binMatch clause with
  | none => .error .badBinSpec
  | some (t, ds, lit) =>
    match lit with
    | [] => .ok ⟨typOfChar t, digitsToNat ds, none⟩
    | _ =>
      match pyIntBase0 lit with
      | some n => .ok ⟨typOfChar t, digitsToNat ds, some n⟩
      | none => .error .valueError

/-- `LIDataParser._parse_binstr` (lines 301-315).  `binstr[0]` on an empty
string raises `IndexError`; a leading `'>'` is rejected as unsupported
big-endian; otherwise every `:`-separated clause is parsed. -/
def _parse_binstr (s : List Char) : Except PErr (List BField) :=
  match s with
  | [] => .error .indexError
  | c :: _ =>
    if c = '>' then .error .bigEndian
    else exMapM parseBinClause (splitSep ':' s)

/-! ## The processing-expression language (`LIDataParser._parse_procstr`,
lines 317-339)

`re.findall(r'([*/\+\-&s\^fc])(\-?[0-9\.xA-F]+(e\-?[0-9]+)?)?', clause)`
finds every operator character in the clause, each with an optional
operand token (optional minus, a run from the class `[0-9.xA-F]`, and an
optional exponent `e[-]digits`).  Characters that match nothing — in
particular unrecognized operator tokens — are silently skipped. -/

def isOpChar (c : Char) : Bool :=
  c = '*' || c = '/' || c = '+' || c = '-' || c = '&' || c = 's' ||
  c = '^' || c = 'f' || c = 'c'

def isOpndChar (c : Char) : Bool :=
  isDigitCh c || c = '.' || c = 'x' || ('A' ≤ c && c ≤ 'F')

/-- The optional exponent part `(e\-?[0-9]+)?` of an operand: the matched
token and the remaining clause.  The `-` after `e` is consumed only when
at least one digit follows. -/
def scanExp (l : List Char) : List Char × List Char :=
  if l.head? = some 'e' then
    let negLen : Nat := if l.tail.head? = some '-' then 1 else 0
    let ds := (l.drop (1 + negLen)).takeWhile isDigitCh
    if ds.isEmpty then ([], l)
    else ('e' :: (if negLen = 1 then ['-'] else []) ++ ds, l.drop (1 + negLen + ds.length))
  else ([], l)

/-- The optional operand `(\-?[0-9\.xA-F]+(e\-?[0-9]+)?)?` after an
operator character: the matched operand token and the rest of the
clause (nothing consumed when the operand group matches empty; a lone
`-` followed by no class character is not consumed, so the scan can
re-match it as a subtraction operator). -/
def scanOperand (l : List Char) : List Char × List Char :=
  let negLen : Nat := if l.head? = some '-' then 1 else 0
  let ds := (l.drop negLen).takeWhile isOpndChar
  if ds.isEmpty then ([], l)
  else
    let ex := scanExp (l.drop (negLen + ds.length))
    ((if negLen = 1 then ['-'] else []) ++ ds ++ ex.1, ex.2)

/-- `re.findall` over a clause, with structural fuel: every operator
character with its (possibly empty) operand token; all other characters
are skipped.  Each step consumes at least one character
(`scanOperand_snd_length`), so fuel `l.length` always suffices. -/
def procScanAux : Nat → List Char → List (Char × List Char)
  | 0, _ => []
  | _, [] => []
  | fuel + 1, c :: rest =>
    if isOpChar c then
      (c, (scanOperand rest).1) :: procScanAux fuel (scanOperand rest).2
    else procScanAux fuel rest

/-- `re.findall` over a clause. -/
def procScan (l : List Char) : List (Char × List Char) :=
  procScanAux l.length l

/-- Python `float(s)`: optional sign, a mantissa with at least one digit
and an optional point, and an optional exponent; the whole token must be
consumed.  The result is the *exact* rational value of the decimal
token; IEEE rounding to the nearest double is not modelled (no theorem
below depends on a rounded value). -/
def pyFloat (l : List Char) : Option Rat :=
  let sgn := match l with | '-' :: _ => true | _ => false
  let l1 := match l with
            | '-' :: r => r
            | '+' :: r => r
            | _ => l
  let ip := l1.takeWhile isDigitCh
  let l2 := l1.drop ip.length
  let (fp, l3) := match l2 with
    | '.' :: r => (r.takeWhile isDigitCh, r.drop (r.takeWhile isDigitCh).length)
    | _ => ([], l2)
  if ip.isEmpty && fp.isEmpty then none
  else
    let mant : Rat := (digitsToNat ip : Rat) + (digitsToNat fp : Rat) / (10 : Rat) ^ fp.length
    let mant := if sgn then -mant else mant
    match l3 with
    | [] => some mant
    | e :: r =>
      if e = 'e' || e = 'E' then
        let esgn := match r with | '-' :: _ => true | _ => false
        let r1 := match r with
                  | '-' :: rr => rr
                  | '+' :: rr => rr
                  | _ => r
        let eds := r1.takeWhile isDigitCh
        if eds.isEmpty || !(r1.drop eds.length).isEmpty then none
        else some (mant * (10 : Rat) ^ ((if esgn then -1 else 1) * (digitsToNat eds : Int)))
      else none

/-- `_eval_lit` (lines 319-328): empty operand is `None`; `'C'` resolves to
the channel's calibration coefficient; otherwise try `int(lit, 0)` then
`float(lit)`, and raise `InvalidFormatException` when both fail. -/
def _eval_lit (cal : Rat) (lit : List Char) : Except PErr (Option PVal) :=
  match lit with
  | [] => .ok none
  | ['C'] => .ok (some (.q cal))
  | _ =>
    match pyIntSigned lit with
    | some n => .ok (some (.i n))
    | none =>
      match pyFloat lit with
      | some x => .ok (some (.q x))
      | none => .error .badLiteral

/-- A parsed per-channel processing format: one operation list per
`:`-separated clause. -/
abbrev ProcFmt := List (List (Char × Option PVal))

/-- `LIDataParser._parse_procstr` (lines 317-339). -/
def _parse_procstr (s : List Char) (cal : Rat) : Except PErr ProcFmt :=
  exMapM (fun clause =>
      exMapM (fun oc => (_eval_lit cal oc.2).map (fun v => (oc.1, v))) (procScan clause))
    (splitSep ':' s)

/-! ## Operator semantics (`LIDataParser._process_records`, lines 380-407)

Python 2 numeric semantics on the modelled values: ints stay ints under
`+ - *` and classic `/` (floor division); any float operand promotes to
float; bools coerce to 0/1; a `None` operand for a binary operator raises
`TypeError`.  Arithmetic on the opaque non-finite values and the two
irrational-result operations are flagged `unmodeled`; no theorem
evaluates those paths. -/

/-- Coerce to a Python number: `none` for the opaque non-finite values. -/
def asArith : PVal → Option (Int ⊕ Rat)
  | .i n => some (.inl n)
  | .q x => some (.inr x)
  | .b v => some (.inl (if v then 1 else 0))
  | .special _ _ => none

def toQ : Int ⊕ Rat → Rat
  | .inl n => (n : Rat)
  | .inr x => x

/-- A binary arithmetic operator: int version when both operands are
ints (or bools), float version otherwise. -/
def numOp2 (fi : Int → Int → Int) (fq : Rat → Rat → Rat)
    (v w : PVal) : Except PErr PVal :=
  match asArith v, asArith w with
  | some (.inl a), some (.inl b) => .ok (.i (fi a b))
  | some a, some b => .ok (.q (fq (toQ a) (toQ b)))
  | _, _ => .error .unmodeled

/-- Python 2 division `val /= lit`: floor division on ints, true division
on floats; a zero divisor raises `ZeroDivisionError`. -/
def pyDiv (v w : PVal) : Except PErr PVal :=
  match asArith v, asArith w with
  | some (.inl a), some (.inl b) =>
    if b = 0 then .error .zeroDiv else .ok (.i (Int.fdiv a b))
  | some a, some b =>
    if toQ b = 0 then .error .zeroDiv else .ok (.q (toQ a / toQ b))
  | _, _ => .error .unmodeled

/-- `val &= lit`: defined for ints/bools only; floats raise `TypeError`. -/
def pyAnd (v w : PVal) : Except PErr PVal :=
  match v, w with
  | .b a, .b b => .ok (.b (a && b))
  | _, _ =>
    match asArith v, asArith w with
    | some (.inl a), some (.inl b) => .ok (.i (Int.land a b))
    | _, _ => .error .typeError

/-- `math.sqrt(val)`: negative argument raises `ValueError`; the result is
a float, modelled exactly when it is an exact rational square and flagged
`unmodeled` otherwise. -/
def pySqrt (v : PVal) : Except PErr PVal :=
  match asArith v with
  | some a =>
    let x := toQ a
    if x < 0 then .error .valueError
    else if (Rat.sqrt x) * (Rat.sqrt x) = x then .ok (.q (Rat.sqrt x))
    else .error .unmodeled
  | none => .error .unmodeled

/-- `int(math.floor(val))` / `int(math.ceil(val))`. -/
def pyFloorCeil (ceil : Bool) (v : PVal) : Except PErr PVal :=
  match asArith v with
  | some (.inl a) => .ok (.i a)
  | some (.inr x) => .ok (.i (if ceil then Int.ceil x else Int.floor x))
  | none => .error .overflow

/-- `val **= lit` in Python 2: int base and non-negative int exponent stay
int; a negative int exponent gives a float (`ZeroDivisionError` on base
0); a float base with an int exponent is exact; non-integral exponents
produce irrational doubles and are flagged `unmodeled`. -/
def pyPow (v w : PVal) : Except PErr PVal :=
  match asArith v, asArith w with
  | some (.inl a), some (.inl b) =>
    if 0 ≤ b then .ok (.i (a ^ b.toNat))
    else if a = 0 then .error .zeroDiv
    else .ok (.q ((a : Rat) ^ b))
  | some a, some (.inl b) =>
    if toQ a = 0 && b < 0 then .error .zeroDiv else .ok (.q (toQ a ^ b))
  | some _, some (.inr _) => .error .unmodeled
  | _, _ => .error .unmodeled

/-- A binary operator's operand: `None` raises `TypeError` (line 387 ff.,
e.g. `val *= None`). -/
def withLit (lit : Option PVal) (k : PVal → Except PErr PVal) : Except PErr PVal :=
  match lit with
  | none => .error .typeError
  | some l => k l

/-- One operation application — the `if/elif` chain of lines 387-397. -/
def applyOp (v : PVal) (op : Char) (lit : Option PVal) : Except PErr PVal :=
  if op = '*' then withLit lit (numOp2 (· * ·) (· * ·) v)
  else if op = '/' then withLit lit (pyDiv v)
  else if op = '+' then withLit lit (numOp2 (· + ·) (· + ·) v)
  else if op = '-' then withLit lit (numOp2 (· - ·) (· - ·) v)
  else if op = '&' then withLit lit (pyAnd v)
  else if op = 's' then pySqrt v
  else if op = 'f' then pyFloorCeil false v
  else if op = 'c' then pyFloorCeil true v
  else if op = '^' then withLit lit (pyPow v)
  else .error .unknownOp

/-- Process one raw record (lines 384-404): `zip` the record with the
channel's per-field operation lists (truncating to the shorter), fold
each field's operations left-to-right, and collect the results.  A
Python record of more than one field becomes a tuple, a single field the
bare scalar; both are modelled as the list of field results (`rec[0]` on
an empty zip raises `IndexError`). -/
def procOneRecord (pf : ProcFmt) (rec : List PVal) : Except PErr (List PVal) := do
  let out ← exMapM (fun vops =>
      vops.2.foldlM (fun acc oplit => applyOp acc oplit.1 oplit.2) vops.1)
    (rec.zip pf)
  if out.isEmpty then throw .indexError else pure out

/-- The per-channel body of `_process_records`: append the processed form
of every completed raw record to `processed` and clear `records`
(lines 383-407). -/
def chProcess (pf : ProcFmt) (st : ChState) : Except PErr ChState := do
  let ps ← exMapM (procOneRecord pf) st.records
  pure { st with processed := st.processed ++ ps, records := [] }

/-- `LIDataParser._process_records` (lines 380-407): process every
channel in order. -/
def _process_records (pfs : List ProcFmt) (sts : List ChState) :
    Except PErr (List ChState) :=
  exMapM (fun sp => chProcess sp.2 sp.1) (sts.zip pfs)

/-- `LIDataParser.parse(data, ch)` (lines 548-554): `_parse` then
`_process_records`. -/
def parse (bf : List BField) (pfs : List ProcFmt) (data : List Nat) (ch : Nat)
    (sts : List ChState) : Except PErr (List ChState) :=
  li_parse bf data ch sts >>= _process_records pfs

/-- The spec-construction part of `LIDataParser.__init__`
(lines 342-362): reject an empty layout string, parse it, and parse one
processing string per active channel with that channel's calibration
coefficient (`procstr[ch]` / `calcoeffs[ch]` raise `IndexError` when the
supplied arrays are too short). -/
def liInit (binstr : List Char) (procstrs : List (List Char)) (cals : List Rat)
    (nch : Nat) : Except PErr (List BField × List ProcFmt) := do
  if binstr.isEmpty then throw .emptyBinstr
  let bf ← _parse_binstr binstr
  let pfs ← exMapM (fun ch =>
      match procstrs.get? ch, cals.get? ch with
      | some p, some c => _parse_procstr p c
      | _, _ => throw .indexError)
    (List.range nch)
  pure (bf, pfs)

/-! ## Scenario runners (compositions of the source operations) -/

/-- Raw-decode scenario: parse a layout string, feed one data chunk to
channel 0 of a fresh single-channel parser with `_parse`, and report the
completed raw records. -/
def runRawScenario (binstr : List Char) (data : List Nat) :
    Except PErr (List (List PVal)) := do
  let bf ← _parse_binstr binstr
  let sts ← li_parse bf data 0 [initCh]
  pure ((sts.getD 0 initCh).records)

/-- Full-pipeline scenario: `LIDataParser.__init__` with one channel,
then `parse` on each chunk in turn, reporting channel 0's processed
records. -/
def runLogScenario (binstr procstr : List Char) (cal : Rat)
    (chunks : List (List Nat)) : Except PErr (List (List PVal)) := do
  let bfpf ← liInit binstr [procstr] [cal] 1
  let sts ← chunks.foldlM (fun sts d => parse bfpf.1 bfpf.2 d 0 sts) [initCh]
  pure ((sts.getD 0 initCh).processed)

/-- The post-reset stuck condition: the next field needs more bits than
the cache holds. -/
def IsStuck (bf : List BField) (st : ChState) : Prop :=
  ∃ fd rest, (doReset bf st).currfmt = fd :: rest ∧ st.dcache.length < fd.width
/-- Map a records/processed replacement over a `StepRes`. -/
def stepRP (R Q : List (List PVal)) : StepRes → StepRes
  | .cont s => .cont { s with records := R ++ s.records, processed := Q }
  | .stop s => .stop { s with records := R ++ s.records, processed := Q }
  | .err e => .err e
/-- One public `parse` call restricted to a single channel: feed then
process (this is exactly `parse` for a one-channel parser, and the
active-channel part of it for a two-channel parser). -/
def chParse1 (bf : List BField) (pf : ProcFmt) (d : List Nat) (st : ChState) :
    Except PErr ChState :=
  (chFeed bf d st) >>= chProcess pf
/-- Fresh per-channel states, as built by `LIDataParser.__init__`
(lines 374-378). -/
def initSts (nch : Nat) : List ChState := List.replicate nch initCh
/-! ## The LI file codec (`LIDataFileWriter`, `LIDataFileReader`)

Bytes are `List Nat`; IEEE-754 doubles are represented by their 64-bit
patterns (`struct.pack('<d')`/`unpack` are mutually inverse bijections
between doubles and byte octets, so carrying the pattern is exact). -/

/-- Errors of the file codec: the three distinct
`InvalidFileException` raise-sites of `LIDataFileReader.__init__`
("Bad Magic", "Unknown File Version", "Incorrect File Header Length"),
`struct.error` from `pack`/`unpack` with out-of-range values or short
buffers, `IndexError` from indexing a too-short coefficient/format-string
array, and the `AttributeError` raised by line 127's reference to the
never-assigned `self.ch1`/`self.ch2`. -/
inductive RErr where
  | badMagic | badVersion | badLength | structError | attrError | indexError
  deriving DecidableEq

/-- `struct.pack('<B', n)`. -/
def packB (n : Nat) : Except RErr (List Nat) :=
  if n < 256 then .ok [n] else .error .structError

/-- `struct.pack('<H', n)`. -/
def packH (n : Nat) : Except RErr (List Nat) :=
  if n < 65536 then .ok [n % 256, n / 256] else .error .structError

/-- The eight little-endian base-256 digits of `n` (`n < 2^64`). -/
def le8 (n : Nat) : List Nat :=
  [n % 256, n / 2 ^ 8 % 256, n / 2 ^ 16 % 256, n / 2 ^ 24 % 256,
   n / 2 ^ 32 % 256, n / 2 ^ 40 % 256, n / 2 ^ 48 % 256, n / 2 ^ 56 % 256]

/-- `struct.pack('<Q', n)`. -/
def packQ (n : Nat) : Except RErr (List Nat) :=
  if n < 2 ^ 64 then .ok (le8 n) else .error .structError

/-- `struct.pack('<d', x)` on the double with bit pattern `pat`
(every double has a pattern below `2^64`, so no range error exists). -/
def packD (pat : Nat) : List Nat := le8 pat

/-- Little-endian value of a byte string (`struct.unpack`). -/
def leVal : List Nat → Nat
  | [] => 0
  | b :: r => b + 256 * leVal r

/-- `struct.unpack('<H', b)`: exactly two bytes or `struct.error`. -/
def unpackH (b : List Nat) : Except RErr Nat :=
  if b.length = 2 then .ok (leVal b) else .error .structError

/-- Count of active channels from the channel-flags byte: bit 0 and
bit 1 (writer lines 245-249, reader lines 88-92 — identical logic). -/
def nchOf (chs : Nat) : Nat :=
  (if chs &&& 1 ≠ 0 then 1 else 0) + (if chs &&& 2 ≠ 0 then 1 else 0)

/-- `LIDataFileWriter.__init__` (lines 244-266): the full byte string
written for a new file — magic `'LI1'`, a `u16` header length, then the
header: `pack("<BBHdQ", chs, instr, instrv, timestep, starttime)`, one
double per active channel, and the four length-prefixed format strings
(one processing string per active channel).  In the source `'LI1'` is
written before the header is assembled, so a `struct.error` would leave
a partial file; no theorem exercises the error paths, which this model
folds into a single `Except`. -/
def writeHeaderBytes (chs instr instrv tsPat stime : Nat) (cal : List Nat)
    (binstr : List Nat) (procstr : List (List Nat)) (fmtstr hdrstr : List Nat) :
    Except RErr (List Nat) := do
  let p1 ← packB chs
  let p2 ← packB instr
  let p3 ← packH instrv
  let p5 ← packQ stime
  let calB ← exMapM (fun i =>
      match cal.get? i with
      | none => .error .indexError
      | some c => .ok (packD c)) (List.range (nchOf chs))
  let lb ← packH binstr.length
  let procB ← exMapM (fun i =>
      match procstr.get? i with
      | none => .error .indexError
      | some p => (packH p.length).map (· ++ p)) (List.range (nchOf chs))
  let lf ← packH fmtstr.length
  let lh ← packH hdrstr.length
  let hdr := p1 ++ p2 ++ p3 ++ packD tsPat ++ p5 ++ calB.flatten ++ lb ++ binstr
      ++ procB.flatten ++ lf ++ fmtstr ++ lh ++ hdrstr
  let lhdr ← packH hdr.length
  pure ([0x4C, 0x49, 0x31] ++ lhdr ++ hdr)

/-- `LIDataFileWriter.add_data` (lines 268-275): `struct.pack("<BH", ch,
len(data))` is evaluated *before* either `write`, so an out-of-range
channel or an oversized payload raises with the file untouched;
otherwise the 3-byte chunk header and the payload are appended.  The
result is the error (if any) paired with the file contents after the
call. -/
def add_data (file : List Nat) (data : List Nat) (ch : Int) :
    Option RErr × List Nat :=
  if 0 ≤ ch ∧ ch < 256 ∧ data.length < 65536 then
    (none, file ++ [ch.toNat, data.length % 256, data.length / 256] ++ data)
  else (some .structError, file)

/-- A byte stream with its consumed-byte count (`f.tell()`). -/
structure RStream where
  rem : List Nat
  pos : Nat
  deriving DecidableEq

/-- `f.read(n)`: up to `n` bytes; a short read returns what is left. -/
def rread (n : Nat) (s : RStream) : List Nat × RStream :=
  let avail := s.rem.take n
  (avail, ⟨s.rem.drop n, s.pos + avail.length⟩)

/-- The header fields exposed by `LIDataFileReader`. -/
structure LIHeader where
  chs : Nat
  instr : Nat
  instrv : Nat
  tsPat : Nat
  stime : Nat
  nch : Nat
  cal : List Nat
  recS : List Nat
  proc : List (List Nat)
  fmt : List Nat
  hdr : List Nat
  deriving DecidableEq

/-- The `nch` iterations of the calibration-coefficient loop
(lines 97-98): each reads 8 bytes (`struct.error` on a short read) and
unpacks a double (carried as its bit pattern). -/
def readCals : Nat → RStream → Except RErr (List Nat × RStream)
  | 0, s => .ok ([], s)
  | k + 1, s =>
    let (cb, s') := rread 8 s
    if cb.length = 8 then do
      let (rest, s'') ← readCals k s'
      pure (leVal cb :: rest, s'')
    else .error .structError

/-- The `nch` iterations of the processing-string loop (lines 106-108):
a `u16` length then that many bytes (a short string read is *not*
checked). -/
def readProcs : Nat → RStream → Except RErr (List (List Nat) × RStream)
  | 0, s => .ok ([], s)
  | k + 1, s => do
    let (lb, s1) := rread 2 s
    let plen ← unpackH lb
    let (p, s2) := rread plen s1
    let (rest, s3) ← readProcs k s2
    pure (p :: rest, s3)

/-- The header-parsing part of `LIDataFileReader.__init__`
(lines 77-125): verify the `'LI'` magic and the `'1'` version byte, read
the declared header length and the `"<BBHdQ"` block, derive the active
channel count, read the per-channel doubles, the four length-prefixed
format strings (one processing string per channel), and finally check
that the consumed byte count equals the declared header length plus 5.
The column-header extraction of lines 115-119 is omitted: it is pure
string munging whose only possible exception (`IndexError`) is caught on
the spot.  Returns the header fields and the final `f.tell()`. -/
def readHeader (bytes : List Nat) : Except RErr (LIHeader × Nat) := do
  let s0 : RStream := ⟨bytes, 0⟩
  let (magic, s1) := rread 2 s0
  if magic ≠ [0x4C, 0x49] then throw .badMagic
  else
    let (ver, s2) := rread 1 s1
    if ver ≠ [0x31] then throw .badVersion
    else do
      let (lb, s3) := rread 2 s2
      let pkthdrLen ← unpackH lb
      let (hb, s4) := rread 20 s3
      if hb.length = 20 then do
        let chs := leVal (hb.take 1)
        let instr := leVal ((hb.drop 1).take 1)
        let instrv := leVal ((hb.drop 2).take 2)
        let tsPat := leVal ((hb.drop 4).take 8)
        let stime := leVal ((hb.drop 12).take 8)
        let nch := nchOf chs
        let (cal, s5) ← readCals nch s4
        let (rb, s6) := rread 2 s5
        let reclen ← unpackH rb
        let (rec, s7) := rread reclen s6
        let (proc, s8) ← readProcs nch s7
        let (fb, s9) := rread 2 s8
        let fmtlen ← unpackH fb
        let (fmt, s10) := rread fmtlen s9
        let (hdb, s11) := rread 2 s10
        let hdrlen ← unpackH hdb
        let (hdr, s12) := rread hdrlen s11
        if s12.pos ≠ pkthdrLen + 5 then throw .badLength
        else
          pure (⟨chs, instr, instrv, tsPat, stime, nch, cal, rec, proc, fmt, hdr⟩,
            s12.pos)
      else throw .structError

/-- All of `LIDataFileReader.__init__` (lines 44-127): parse the header,
then construct the `LIDataParser` — which dereferences the never-assigned
attributes `self.ch1`/`self.ch2` at line 127 and therefore raises
`AttributeError` on every successfully parsed header. -/
def readerInit (bytes : List Nat) : Except RErr LIHeader := do
  let _ ← readHeader bytes
  throw .attrError
/-- The bytes the writer emits for one processing string. -/
def procChunk (p : List Nat) : List Nat := [p.length % 256, p.length / 256] ++ p
/-- The header the writer assembles (everything after the magic and the
`u16` total-length prefix) when every packed value is in range: the
`"<BBHdQ"` block, one double per active channel, and the four
length-prefixed format strings (writer lines 250-260). -/
def hdrCore (chs instr instrv tsPat stime : Nat) (cal : List Nat)
    (binstr : List Nat) (procstr : List (List Nat)) (fmtstr hdrstr : List Nat) :
    List Nat :=
  [chs] ++ [instr] ++ [instrv % 256, instrv / 256] ++ packD tsPat ++ le8 stime
    ++ ((cal.take (nchOf chs)).map packD).flatten
    ++ [binstr.length % 256, binstr.length / 256] ++ binstr
    ++ ((procstr.take (nchOf chs)).map procChunk).flatten
    ++ [fmtstr.length % 256, fmtstr.length / 256] ++ fmtstr
    ++ [hdrstr.length % 256, hdrstr.length / 256] ++ hdrstr

end Pymoku

deriving instance DecidableEq for Except

namespace Pymoku

/-! ## Claim C1 — chunking invariance of literal-free streaming decode

A field is *good* when it is literal-free, at least one bit wide, and of
a decodable type (the LayoutSpec invariant of the spec: widths in
`[1, 64]`, floats 32/64 bits wide).  Under a good layout the decoder
never errors and never resynchronizes, and every continuing loop
iteration consumes cached bits. -/

/-- A literal-free, decodable field of positive width. -/
def GoodField (fd : BField) : Prop :=
  fd.lit = none ∧ 1 ≤ fd.width ∧
  (fd.typ = .f → fd.width = 32 ∨ fd.width = 64) ∧ fd.typ ≠ .r

/-- Every field of the list is good. -/
def GoodFmt (l : List BField) : Prop := ∀ fd ∈ l, GoodField fd

theorem scanExp_snd_length (l : List Char) : (scanExp l).2.length ≤ l.length := by
  unfold scanExp
  dsimp only
  repeat' split
  all_goals simp [List.length_drop]

theorem scanExp_snd_length_drop (k : Nat) (l : List Char) :
    (scanExp (l.drop k)).2.length ≤ l.length :=
  le_trans (scanExp_snd_length (l.drop k)) (by simp only [List.length_drop]; omega)

theorem scanOperand_snd_length (l : List Char) :
    (scanOperand l).2.length ≤ l.length := by
  unfold scanOperand
  dsimp only
  repeat' split
  all_goals
    first
      | (simp; done)
      | exact scanExp_snd_length_drop _ _

theorem goodFmt_nil : GoodFmt [] := by intro fd h; cases h

theorem goodFmt_tail {fd : BField} {rest : List BField}
    (h : GoodFmt (fd :: rest)) : GoodFmt rest :=
  fun g hg => h g (List.mem_cons_of_mem fd hg)

/-- `doReset` never touches the bit cache. -/
theorem doReset_dcache (bf : List BField) (st : ChState) :
    (doReset bf st).dcache = st.dcache := by
  unfold doReset; split <;> rfl

/-- `doReset` commutes with replacing the bit cache. -/
theorem doReset_setDcache (bf : List BField) (st : ChState) (x : List Bool) :
    doReset bf { st with dcache := x } = { doReset bf st with dcache := x } := by
  unfold doReset; split <;> rfl

/-- After the reset the cursor is non-empty provided the layout is. -/
theorem doReset_currfmt_ne (bf : List BField) (st : ChState) (hbf : bf ≠ []) :
    (doReset bf st).currfmt ≠ [] := by
  unfold doReset
  split
  · simpa using hbf
  · next h => simpa using h

/-- Every cursor field after a reset comes from the old cursor or the
layout. -/
theorem doReset_currfmt_good (bf : List BField) (st : ChState)
    (hgbf : GoodFmt bf) (hgf : GoodFmt st.currfmt) :
    GoodFmt (doReset bf st).currfmt := by
  unfold doReset
  split
  · exact hgbf
  · exact hgf

/-- A reset is idempotent once the cursor is non-empty. -/
theorem doReset_of_ne (bf : List BField) (st : ChState)
    (h : st.currfmt ≠ []) : doReset bf st = st := by
  unfold doReset
  rw [if_neg (by simpa using h)]

/-- A good field always decodes (to some value) once `width` bits are
available. -/
theorem decodeField_good_total (fd : BField) (cand : List Bool)
    (hg : GoodField fd) (hlen : cand.length = fd.width) :
    ∃ v, decodeField fd.typ fd.width cand = .ok v := by
  obtain ⟨-, hw, hf, hr⟩ := hg
  have hne : cand.isEmpty = false := by
    rw [List.isEmpty_eq_false_iff_exists_mem]
    cases cand with
    | nil => simp at hlen; omega
    | cons a l => exact ⟨a, List.mem_cons_self a l⟩
  unfold decodeField
  cases htyp : fd.typ with
  | u => exact ⟨_, by rw [hne]; rfl⟩
  | p => exact ⟨_, by rw [hne]; rfl⟩
  | s => exact ⟨_, by rw [hne]; rfl⟩
  | b => exact ⟨_, rfl⟩
  | r => exact absurd htyp hr
  | f =>
    rcases hf htyp with h32 | h64
    · exact ⟨floatValQ 8 23 32 (bitsToNat cand), by rw [h32]; rfl⟩
    · exact ⟨floatValQ 11 52 64 (bitsToNat cand), by rw [h64]; rfl⟩

/-- Case analysis of one loop iteration over a good layout: the
iteration either stops (too few bits for the next field, cache
unchanged) or accepts the next field — consuming its bits, preserving
goodness, and commuting with any extension of the cache. -/
theorem parseStep_good_cases (bf : List BField) (st : ChState)
    (hbf : bf ≠ []) (hgbf : GoodFmt bf) (hgf : GoodFmt st.currfmt) :
    (parseStep bf st = .stop (doReset bf st) ∧ IsStuck bf st ∧
      ∀ b, parseStep bf { st with dcache := st.dcache ++ b }
          = parseStep bf { doReset bf st with dcache := st.dcache ++ b }) ∨
    (∃ st', parseStep bf st = .cont st'
      ∧ st'.dcache.length < st.dcache.length
      ∧ GoodFmt st'.currfmt
      ∧ ∀ b, parseStep bf { st with dcache := st.dcache ++ b }
          = .cont { st' with dcache := st'.dcache ++ b }) := by
  have hgf1 : GoodFmt (doReset bf st).currfmt := doReset_currfmt_good bf st hgbf hgf
  obtain ⟨fd, rest, hcons⟩ :=
    List.exists_cons_of_ne_nil (doReset_currfmt_ne bf st hbf)
  have hfd : GoodField fd := hgf1 fd (by rw [hcons]; exact List.mem_cons_self fd rest)
  have hdc : (doReset bf st).dcache = st.dcache := doReset_dcache bf st
  by_cases hlt : st.dcache.length < fd.width
  · -- stop
    left
    refine ⟨?_, ⟨fd, rest, hcons, hlt⟩, ?_⟩
    · unfold parseStep stepCore
      rw [hcons]
      dsimp only
      rw [hdc, if_pos hlt]
    · intro b
      unfold parseStep
      rw [doReset_setDcache bf st (st.dcache ++ b)]
      rw [doReset_of_ne bf ({ doReset bf st with dcache := st.dcache ++ b })
            (by rw [hcons]; exact List.cons_ne_nil fd rest : ({ doReset bf st with dcache := st.dcache ++ b } : ChState).currfmt ≠ [])]
  · -- accept
    right
    have hwle : fd.width ≤ st.dcache.length := by omega
    obtain ⟨v, hdecv⟩ := decodeField_good_total fd
      ((st.dcache.take fd.width).reverse) hfd
      (by simp only [List.length_reverse, List.length_take]; omega)
    have hlitOk : litOk fd.lit v = true := by
      rw [hfd.1]; rfl
    refine ⟨{ doReset bf st with
              currecord := if fd.typ = .p then (doReset bf st).currecord
                           else (doReset bf st).currecord ++ [v]
            , currfmt := rest
            , dcache := st.dcache.drop fd.width }, ?_, ?_, ?_, ?_⟩
    · unfold parseStep stepCore
      rw [hcons]
      dsimp only
      rw [hdc, if_neg hlt, hdecv]
      dsimp only
      rw [hlitOk]
      simp
    · simp only [List.length_drop]
      have := hfd.2.1
      omega
    · exact fun g hg => hgf1 g (by rw [hcons]; exact List.mem_cons_of_mem fd hg)
    · intro b
      unfold parseStep
      rw [doReset_setDcache]
      unfold stepCore
      rw [hcons]
      dsimp only
      rw [if_neg (by simp only [List.length_append]; omega : ¬ (st.dcache ++ b).length < fd.width)]
      rw [List.take_append_of_le_length hwle, hdecv]
      dsimp only
      rw [hlitOk]
      simp only [if_true]
      rw [List.drop_append_of_le_length hwle]

theorem parseLoop_zero (bf : List BField) (st : ChState) :
    parseLoop bf 0 st = .error .noFuel := rfl

theorem parseLoop_succ (bf : List BField) (n : Nat) (st : ChState) :
    parseLoop bf (n + 1) st
      = match parseStep bf st with
        | .stop st' => .ok st'
        | .err e => .error e
        | .cont st' => parseLoop bf n st' := rfl

/-- Fuel monotonicity: once the loop finishes within `n` steps, more fuel
does not change the result. -/
theorem parseLoop_mono (bf : List BField) :
    ∀ (n : Nat) (st : ChState), parseLoop bf n st ≠ .error .noFuel →
    ∀ m, n ≤ m → parseLoop bf m st = parseLoop bf n st := by
  intro n
  induction n with
  | zero => intro st h; exact absurd (parseLoop_zero bf st) h
  | succ n ih =>
    intro st h m hm
    obtain ⟨m', rfl⟩ : ∃ m', m = m' + 1 := ⟨m - 1, by omega⟩
    rw [parseLoop_succ] at h ⊢
    rw [parseLoop_succ]
    cases hs : parseStep bf st with
    | stop st' => rfl
    | err e => rfl
    | cont st' =>
      rw [hs] at h
      exact ih st' h m' (by omega)

/-- Over a good layout the loop always finishes within `|dcache| + 1`
steps: every continuing iteration consumes at least one cached bit. -/
theorem parseLoop_good_ne_noFuel (bf : List BField)
    (hbf : bf ≠ []) (hgbf : GoodFmt bf) :
    ∀ (L : Nat) (st : ChState), st.dcache.length ≤ L → GoodFmt st.currfmt →
      parseLoop bf (L + 1) st ≠ .error .noFuel := by
  intro L
  induction L using Nat.strong_induction_on with
  | _ L ih =>
    intro st hL hgf
    rw [parseLoop_succ]
    rcases parseStep_good_cases bf st hbf hgbf hgf with
      ⟨hstep, -, -⟩ | ⟨st', hstep, hlen, hgf', -⟩
    · rw [hstep]; simp
    · rw [hstep]
      obtain ⟨L', rfl⟩ : ∃ L', L = L' + 1 := ⟨L - 1, by omega⟩
      exact ih L' (by omega) st' (by omega) hgf'

/-- The central streaming lemma.  Over a good layout, from any state with
a good cursor the loop (with its canonical fuel) succeeds, lands in a
stuck state (the next field needs more bits than remain), preserves
cursor goodness — and, crucially, running the loop after appending more
bits to the input cache is the same as appending those bits to the
*stuck* state's residual cache and running the loop from there. -/
theorem runLoop_good (bf : List BField) (hbf : bf ≠ []) (hgbf : GoodFmt bf) :
    ∀ st : ChState, GoodFmt st.currfmt →
    ∃ st1, runLoop bf st = .ok st1
      ∧ GoodFmt st1.currfmt
      ∧ (∃ fd rest, st1.currfmt = fd :: rest ∧ st1.dcache.length < fd.width)
      ∧ ∀ b, runLoop bf { st with dcache := st.dcache ++ b }
            = runLoop bf { st1 with dcache := st1.dcache ++ b } := by
  intro st
  generalize hN : st.dcache.length = N
  induction N using Nat.strong_induction_on generalizing st with
  | _ N ih =>
    intro hgf
    rcases parseStep_good_cases bf st hbf hgbf hgf with
      ⟨hstep, ⟨fd, rest, hcons, hlt⟩, hstepb⟩ | ⟨st', hstep, hlen, hgf', hstepb⟩
    · -- the loop stops immediately on the (possibly reset) state
      have hdc : (doReset bf st).dcache = st.dcache := doReset_dcache bf st
      refine ⟨doReset bf st, ?_, doReset_currfmt_good bf st hgbf hgf,
        ⟨fd, rest, hcons, by rw [hdc, hN]; rw [hN] at hlt; exact hlt⟩, ?_⟩
      · show parseLoop bf (st.dcache.length + 1) st = .ok (doReset bf st)
        rw [parseLoop_succ, hstep]
      · intro b
        show parseLoop bf (((st.dcache ++ b).length) + 1) _
          = parseLoop bf ((((doReset bf st).dcache ++ b).length) + 1) _
        rw [hdc]
        rw [parseLoop_succ, parseLoop_succ]
        rw [hstepb b]
    · -- the loop accepts a field and continues on a strictly smaller cache
      have hne' := parseLoop_good_ne_noFuel bf hbf hgbf st'.dcache.length st' le_rfl hgf'
      have hmono := parseLoop_mono bf (st'.dcache.length + 1) st' hne'
        st.dcache.length (by omega)
      have hrun : runLoop bf st = runLoop bf st' := by
        show parseLoop bf (st.dcache.length + 1) st = runLoop bf st'
        rw [parseLoop_succ, hstep]
        show parseLoop bf st.dcache.length st' = runLoop bf st'
        exact hmono
      obtain ⟨st1, h1, h2, h3, h4⟩ := ih st'.dcache.length (by omega) st' rfl hgf'
      refine ⟨st1, hrun.trans h1, h2, h3, ?_⟩
      intro b
      have hne2 := parseLoop_good_ne_noFuel bf hbf hgbf ((st'.dcache ++ b).length)
        { st' with dcache := st'.dcache ++ b } le_rfl hgf'
      have hmono2 := parseLoop_mono bf ((st'.dcache ++ b).length + 1)
        { st' with dcache := st'.dcache ++ b } hne2 ((st.dcache ++ b).length)
        (by simp only [List.length_append]; omega)
      have hstep2 : runLoop bf { st with dcache := st.dcache ++ b }
          = runLoop bf { st' with dcache := st'.dcache ++ b } := by
        show parseLoop bf ((st.dcache ++ b).length + 1) _ = _
        rw [parseLoop_succ, hstepb b]
        show parseLoop bf ((st.dcache ++ b).length) { st' with dcache := st'.dcache ++ b }
          = runLoop bf { st' with dcache := st'.dcache ++ b }
        exact hmono2
      exact hstep2.trans (h4 b)

theorem bytesToBits_append (a b : List Nat) :
    bytesToBits (a ++ b) = bytesToBits a ++ bytesToBits b := by
  simp [bytesToBits]

theorem afterLoop_of_currfmt_ne (st : ChState) (h : st.currfmt ≠ []) :
    afterLoop st = st := by
  have h' : st.currfmt.isEmpty = false := by simpa using h
  simp [afterLoop, h']

/-- `chFeed` over a good layout: it succeeds, the final state is stuck
with a good non-empty cursor, and feeding more data to the final state
is the same as feeding the concatenation to the original state. -/
theorem chFeed_good (bf : List BField) (hbf : bf ≠ []) (hgbf : GoodFmt bf)
    (st : ChState) (hgf : GoodFmt st.currfmt) (data : List Nat) :
    ∃ st1, chFeed bf data st = .ok st1
      ∧ GoodFmt st1.currfmt
      ∧ (∃ fd rest, st1.currfmt = fd :: rest ∧ st1.dcache.length < fd.width)
      ∧ ∀ d2, chFeed bf d2 st1 = chFeed bf (data ++ d2) st := by
  obtain ⟨st1, h1, h2, h3, h4⟩ :=
    runLoop_good bf hbf hgbf { st with dcache := st.dcache ++ bytesToBits data } hgf
  have hne : st1.currfmt ≠ [] := by
    obtain ⟨fd, rest, hc, -⟩ := h3
    rw [hc]; exact List.cons_ne_nil fd rest
  refine ⟨st1, ?_, h2, h3, ?_⟩
  · unfold chFeed
    rw [h1]
    simp [Except.map, afterLoop_of_currfmt_ne st1 hne]
  · intro d2
    unfold chFeed
    rw [bytesToBits_append]
    have h4' : runLoop bf { st with dcache := (st.dcache ++ bytesToBits data) ++ bytesToBits d2 }
        = runLoop bf { st1 with dcache := st1.dcache ++ bytesToBits d2 } := h4 (bytesToBits d2)
    rw [← List.append_assoc, h4']

/-! Unfolding equations and append/first-error structure of `exMapM`. -/

theorem exMapM_nil {ε α β : Type} (f : α → Except ε β) : exMapM f [] = .ok [] := rfl

theorem exMapM_cons {ε α β : Type} (f : α → Except ε β) (x : α) (xs : List α) :
    exMapM f (x :: xs)
      = match f x with
        | .error e => .error e
        | .ok y =>
          match exMapM f xs with
          | .error e => .error e
          | .ok ys => .ok (y :: ys) := rfl

theorem exMapM_append {ε α β : Type} (f : α → Except ε β) (a b : List α) :
    exMapM f (a ++ b)
      = match exMapM f a with
        | .error e => .error e
        | .ok xs =>
          match exMapM f b with
          | .error e => .error e
          | .ok ys => .ok (xs ++ ys) := by
  induction a with
  | nil =>
    simp only [List.nil_append, exMapM_nil]
    cases exMapM f b <;> simp
  | cons x xs ih =>
    simp only [List.cons_append, exMapM_cons, ih]
    cases f x with
    | error e => rfl
    | ok y =>
      cases exMapM f xs with
      | error e => rfl
      | ok l =>
        cases exMapM f b <;> rfl

/-! ## Frame lemmas: the decoder loop never reads `records` or
`processed`; it only appends to `records`.  Replacing those two fields
with anything else therefore commutes with the loop. -/

theorem parseStep_rp (bf : List BField) (st : ChState) (R Q : List (List PVal)) :
    parseStep bf { st with records := R ++ st.records, processed := Q }
      = stepRP R Q (parseStep bf st) := by
  unfold parseStep doReset
  by_cases h : st.currfmt.isEmpty
  · rw [if_pos h, if_pos h]
    unfold stepCore
    cases hbf : bf with
    | nil => rfl
    | cons fd rest =>
      dsimp only
      split
      · simp [stepRP, List.append_assoc]
      · cases hdec : decodeField fd.typ fd.width ((st.dcache.take fd.width).reverse) with
        | error e => rfl
        | ok v =>
          dsimp only
          split <;> simp [stepRP, List.append_assoc]
  · rw [if_neg h, if_neg h]
    unfold stepCore
    cases hfmt : st.currfmt with
    | nil => rfl
    | cons fd rest =>
      dsimp only
      split
      · simp [stepRP, hfmt]
      · cases hdec : decodeField fd.typ fd.width ((st.dcache.take fd.width).reverse) with
        | error e => rfl
        | ok v =>
          dsimp only
          split <;> simp [stepRP, List.append_assoc]

theorem parseLoop_rp (bf : List BField) (n : Nat) (st : ChState)
    (R Q : List (List PVal)) :
    parseLoop bf n { st with records := R ++ st.records, processed := Q }
      = (parseLoop bf n st).map (fun s => { s with records := R ++ s.records, processed := Q }) := by
  induction n generalizing st with
  | zero => rfl
  | succ n ih =>
    rw [parseLoop_succ, parseLoop_succ, parseStep_rp]
    cases parseStep bf st with
    | stop s => rfl
    | err e => rfl
    | cont s => exact ih s

theorem runLoop_rp (bf : List BField) (st : ChState) (R Q : List (List PVal)) :
    runLoop bf { st with records := R ++ st.records, processed := Q }
      = (runLoop bf st).map (fun s => { s with records := R ++ s.records, processed := Q }) :=
  parseLoop_rp bf (st.dcache.length + 1) st R Q

theorem afterLoop_rp (st : ChState) (R Q : List (List PVal)) :
    afterLoop { st with records := R ++ st.records, processed := Q }
      = { afterLoop st with records := R ++ (afterLoop st).records, processed := Q } := by
  unfold afterLoop
  dsimp only
  split
  · dsimp only
    rw [List.append_assoc]
  · rfl

theorem chFeed_rp (bf : List BField) (data : List Nat) (st : ChState)
    (R Q : List (List PVal)) :
    chFeed bf data { st with records := R ++ st.records, processed := Q }
      = (chFeed bf data st).map (fun s => { s with records := R ++ s.records, processed := Q }) := by
  unfold chFeed
  have : ({ st with records := R ++ st.records, processed := Q, dcache := st.dcache ++ bytesToBits data } : ChState)
      = { ({ st with dcache := st.dcache ++ bytesToBits data } : ChState) with
          records := R ++ st.records, processed := Q } := rfl
  rw [show ({ st with records := R ++ st.records, processed := Q } : ChState).dcache
        = st.dcache from rfl] at *
  rw [show ({ st with records := R ++ st.records, processed := Q } : ChState).records
        = R ++ st.records from rfl] at *
  rw [runLoop_rp bf { st with dcache := st.dcache ++ bytesToBits data } R Q]
  cases runLoop bf { st with dcache := st.dcache ++ bytesToBits data } with
  | error e => rfl
  | ok s =>
    simp only [Except.map]
    rw [afterLoop_rp]

theorem eBind_ok {ε α β : Type} (a : α) (f : α → Except ε β) :
    (Except.ok a >>= f) = f a := rfl

theorem eBind_error {ε α β : Type} (e : ε) (f : α → Except ε β) :
    ((Except.error e : Except ε α) >>= f) = .error e := rfl

theorem eMap_ok {ε α β : Type} (g : α → β) (a : α) :
    (Except.ok a : Except ε α).map g = .ok (g a) := rfl

theorem eMap_error {ε α β : Type} (g : α → β) (e : ε) :
    (Except.error e : Except ε α).map g = .error e := rfl

/-- `chProcess` on the branches of its record traversal. -/
theorem chProcess_eq (pf : ProcFmt) (st : ChState) :
    chProcess pf st
      = match exMapM (procOneRecord pf) st.records with
        | .error e => .error e
        | .ok ps => .ok { st with processed := st.processed ++ ps, records := [] } := by
  unfold chProcess
  cases exMapM (procOneRecord pf) st.records <;> rfl

/-- Processing a channel with no completed records is the identity. -/
theorem chProcess_records_nil (pf : ProcFmt) (st : ChState) (h : st.records = []) :
    chProcess pf st = .ok st := by
  rw [chProcess_eq, h]
  cases st with
  | mk d cf cr r p =>
    simp only at h
    subst h
    simp [exMapM_nil]

/-- Normal form of a feed: only the `records`/`processed` content of the
input state is threaded through; the active decoding state is that of
the run from an empty records/processed pair. -/
theorem chFeed_normal (bf : List BField) (data : List Nat) (s : ChState) :
    chFeed bf data s
      = (chFeed bf data { s with records := [], processed := [] }).map
          (fun t => { t with records := s.records ++ t.records, processed := s.processed }) := by
  have h := chFeed_rp bf data { s with records := [], processed := [] } s.records s.processed
  have hstate : ({ ({ s with records := [], processed := [] } : ChState) with
      records := s.records ++ ([] : List (List PVal)), processed := s.processed } : ChState) = s := by
    cases s
    simp
  rw [hstate] at h
  exact h

/-- Chunk composition of feed-then-process over a good layout: parsing
`d1 ++ d2` equals parsing `d1` then `d2`, *including* error agreement
(the first failing record is the same in both runs). -/
theorem chParse1_append (bf : List BField) (pf : ProcFmt)
    (hbf : bf ≠ []) (hgbf : GoodFmt bf)
    (st : ChState) (hgf : GoodFmt st.currfmt) (d1 d2 : List Nat) :
    chParse1 bf pf (d1 ++ d2) st = (chParse1 bf pf d1 st) >>= chParse1 bf pf d2 := by
  unfold chParse1
  obtain ⟨s1, hf1, hg1, -, hcomp⟩ := chFeed_good bf hbf hgbf st hgf d1
  rw [← hcomp d2, hf1, eBind_ok]
  rw [chFeed_normal bf d2 s1]
  rw [chProcess_eq pf s1]
  obtain ⟨t, hft, -, -, -⟩ := chFeed_good bf hbf hgbf
      { s1 with records := [], processed := [] } hg1 d2
  rw [hft]
  cases hm1 : exMapM (procOneRecord pf) s1.records with
  | error e =>
    simp only [eMap_ok, eBind_ok, eBind_error]
    rw [chProcess_eq]
    dsimp only
    rw [exMapM_append, hm1]
  | ok P1 =>
    simp only [eMap_ok, eBind_ok]
    rw [chFeed_normal bf d2 { s1 with processed := s1.processed ++ P1, records := [] }]
    have hform : ({ ({ s1 with processed := s1.processed ++ P1, records := [] } : ChState) with
        records := [], processed := [] } : ChState)
        = { s1 with records := [], processed := [] } := rfl
    rw [hform, hft]
    simp only [eMap_ok, eBind_ok]
    rw [chProcess_eq, chProcess_eq]
    dsimp only
    rw [exMapM_append, hm1]
    simp only [List.nil_append]
    cases hm2 : exMapM (procOneRecord pf) t.records with
    | error e => rfl
    | ok P2 => simp [List.append_assoc]

/-- Invariants of a successful feed-then-process step: no completed
records remain (all processed), the cursor is still good, and the state
is stuck before its next field. -/
theorem chParse1_ok_inv (bf : List BField) (pf : ProcFmt)
    (hbf : bf ≠ []) (hgbf : GoodFmt bf)
    (st : ChState) (hgf : GoodFmt st.currfmt) (d : List Nat) (s' : ChState)
    (h : chParse1 bf pf d st = .ok s') :
    s'.records = [] ∧ GoodFmt s'.currfmt
      ∧ ∃ fd rest, s'.currfmt = fd :: rest ∧ s'.dcache.length < fd.width := by
  obtain ⟨s1, hf1, hg1, hstuck, -⟩ := chFeed_good bf hbf hgbf st hgf d
  unfold chParse1 at h
  rw [hf1, eBind_ok, chProcess_eq] at h
  cases hm : exMapM (procOneRecord pf) s1.records with
  | error e => rw [hm] at h; cases h
  | ok P =>
    rw [hm] at h
    simp only [Except.ok.injEq] at h
    subst h
    exact ⟨rfl, hg1, hstuck⟩

/-- Folding feed-then-process over a non-empty chunk list equals one
feed-then-process of the concatenation. -/
theorem chParse1_foldlM (bf : List BField) (pf : ProcFmt)
    (hbf : bf ≠ []) (hgbf : GoodFmt bf) :
    ∀ (chunks : List (List Nat)) (st : ChState), chunks ≠ [] →
      GoodFmt st.currfmt → st.records = [] →
      chunks.foldlM (fun s d => chParse1 bf pf d s) st
        = chParse1 bf pf chunks.flatten st := by
  intro chunks
  induction chunks with
  | nil => intro st h; exact absurd rfl h
  | cons c cs ih =>
    intro st _ hgf hrec
    by_cases hcs : cs = []
    · subst hcs
      show (chParse1 bf pf c st) >>= (fun s => List.foldlM _ s []) = _
      simp only [List.foldlM_nil, List.flatten_cons, List.flatten_nil, List.append_nil]
      cases chParse1 bf pf c st <;> rfl
    · show (chParse1 bf pf c st) >>= (fun s => List.foldlM _ s cs) = _
      rw [List.flatten_cons, chParse1_append bf pf hbf hgbf st hgf c cs.flatten]
      cases hc1 : chParse1 bf pf c st with
      | error e => rfl
      | ok s1 =>
        simp only [eBind_ok]
        obtain ⟨hrec1, hgf1, -⟩ := chParse1_ok_inv bf pf hbf hgbf st hgf c s1 hc1
        exact ih s1 hcs hgf1 hrec1

/-- Folding a raw feed over a non-empty chunk list equals one raw feed of
the concatenation. -/
theorem chFeed_foldlM (bf : List BField) (hbf : bf ≠ []) (hgbf : GoodFmt bf) :
    ∀ (chunks : List (List Nat)) (st : ChState), chunks ≠ [] →
      GoodFmt st.currfmt →
      chunks.foldlM (fun s d => chFeed bf d s) st = chFeed bf chunks.flatten st := by
  intro chunks
  induction chunks with
  | nil => intro st h; exact absurd rfl h
  | cons c cs ih =>
    intro st _ hgf
    obtain ⟨s1, hf1, hg1, -, hcomp⟩ := chFeed_good bf hbf hgbf st hgf c
    by_cases hcs : cs = []
    · subst hcs
      show (chFeed bf c st) >>= (fun s => List.foldlM _ s []) = _
      simp only [List.foldlM_nil, List.flatten_cons, List.flatten_nil, List.append_nil]
      cases chFeed bf c st <;> rfl
    · show (chFeed bf c st) >>= (fun s => List.foldlM _ s cs) = _
      rw [List.flatten_cons, hf1, eBind_ok, ih s1 hcs hg1, hcomp cs.flatten]

/-! Reduction of the channel-array wrappers `_parse`/`parse` to the
single-channel operations, for the one- and two-channel parsers. -/

theorem chidxOf_one (ch : Nat) : chidxOf ch 1 = some 0 := by
  unfold chidxOf; simp

theorem li_parse_one (bf : List BField) (d : List Nat) (ch : Nat) (s : ChState) :
    li_parse bf d ch [s] = (chFeed bf d s).map (fun x => [x]) := by
  unfold li_parse
  rw [show ([s] : List ChState).length = 1 from rfl, chidxOf_one ch]
  rfl

theorem li_parse_two_0 (bf : List BField) (d : List Nat) (s0 s1 : ChState) :
    li_parse bf d 0 [s0, s1] = (chFeed bf d s0).map (fun x => [x, s1]) := rfl

theorem li_parse_two_1 (bf : List BField) (d : List Nat) (s0 s1 : ChState) :
    li_parse bf d 1 [s0, s1] = (chFeed bf d s1).map (fun x => [s0, x]) := rfl

theorem process_records_one (pf : ProcFmt) (s : ChState) :
    _process_records [pf] [s] = (chProcess pf s).map (fun x => [x]) := by
  unfold _process_records
  show exMapM _ [(s, pf)] = _
  rw [exMapM_cons]
  cases chProcess pf s with
  | error e => rfl
  | ok t => rfl

theorem parse_one (bf : List BField) (pf : ProcFmt) (d : List Nat) (ch : Nat)
    (s : ChState) :
    parse bf [pf] d ch [s] = (chParse1 bf pf d s).map (fun x => [x]) := by
  unfold parse chParse1
  rw [li_parse_one]
  cases hf : chFeed bf d s with
  | error e => rfl
  | ok s' =>
    simp only [eMap_ok, eBind_ok]
    exact process_records_one pf s'

theorem process_records_two (pf0 pf1 : ProcFmt) (s0 s1 : ChState) :
    _process_records [pf0, pf1] [s0, s1]
      = (chProcess pf0 s0) >>= fun t0 => (chProcess pf1 s1).map fun t1 => [t0, t1] := by
  unfold _process_records
  show exMapM _ [(s0, pf0), (s1, pf1)] = _
  rw [exMapM_cons]
  cases chProcess pf0 s0 with
  | error e => rfl
  | ok t0 =>
    dsimp only
    rw [exMapM_cons]
    cases chProcess pf1 s1 with
    | error e => rfl
    | ok t1 => rfl

theorem parse_two_0 (bf : List BField) (pf0 pf1 : ProcFmt) (d : List Nat)
    (s0 s1 : ChState) (h1 : s1.records = []) :
    parse bf [pf0, pf1] d 0 [s0, s1]
      = (chParse1 bf pf0 d s0).map (fun x => [x, s1]) := by
  unfold parse chParse1
  rw [li_parse_two_0]
  cases hf : chFeed bf d s0 with
  | error e => rfl
  | ok s' =>
    simp only [eMap_ok, eBind_ok]
    rw [process_records_two]
    cases hp : chProcess pf0 s' with
    | error e => rfl
    | ok t0 =>
      simp only [eBind_ok]
      rw [chProcess_records_nil pf1 s1 h1]
      rfl

theorem parse_two_1 (bf : List BField) (pf0 pf1 : ProcFmt) (d : List Nat)
    (s0 s1 : ChState) (h0 : s0.records = []) :
    parse bf [pf0, pf1] d 1 [s0, s1]
      = (chParse1 bf pf1 d s1).map (fun x => [s0, x]) := by
  unfold parse chParse1
  rw [li_parse_two_1]
  cases hf : chFeed bf d s1 with
  | error e => rfl
  | ok s' =>
    simp only [eMap_ok, eBind_ok]
    rw [process_records_two]
    rw [chProcess_records_nil pf0 s0 h0]
    simp only [eBind_ok]

/-! Fold-level reductions of the wrappers to the single-channel folds. -/

theorem foldlM_parse_one (bf : List BField) (pf : ProcFmt) (ch : Nat) :
    ∀ (chunks : List (List Nat)) (s : ChState),
    chunks.foldlM (fun sts d => parse bf [pf] d ch sts) [s]
      = (chunks.foldlM (fun t d => chParse1 bf pf d t) s).map (fun x => [x]) := by
  intro chunks
  induction chunks with
  | nil => intro s; rfl
  | cons c cs ih =>
    intro s
    show (parse bf [pf] c ch [s]) >>= (fun sts => List.foldlM _ sts cs)
      = ((chParse1 bf pf c s) >>= (fun t => List.foldlM _ t cs)).map _
    rw [parse_one]
    cases h : chParse1 bf pf c s with
    | error e => rfl
    | ok s' =>
      simp only [eMap_ok, eBind_ok]
      exact ih s'

theorem foldlM_parse_two_0 (bf : List BField) (pf0 pf1 : ProcFmt)
    (s1 : ChState) (h1 : s1.records = []) :
    ∀ (chunks : List (List Nat)) (s : ChState),
    chunks.foldlM (fun sts d => parse bf [pf0, pf1] d 0 sts) [s, s1]
      = (chunks.foldlM (fun t d => chParse1 bf pf0 d t) s).map (fun x => [x, s1]) := by
  intro chunks
  induction chunks with
  | nil => intro s; rfl
  | cons c cs ih =>
    intro s
    show (parse bf [pf0, pf1] c 0 [s, s1]) >>= (fun sts => List.foldlM _ sts cs)
      = ((chParse1 bf pf0 c s) >>= (fun t => List.foldlM _ t cs)).map _
    rw [parse_two_0 bf pf0 pf1 c s s1 h1]
    cases h : chParse1 bf pf0 c s with
    | error e => rfl
    | ok s' =>
      simp only [eMap_ok, eBind_ok]
      exact ih s'

theorem foldlM_parse_two_1 (bf : List BField) (pf0 pf1 : ProcFmt)
    (s0 : ChState) (h0 : s0.records = []) :
    ∀ (chunks : List (List Nat)) (s : ChState),
    chunks.foldlM (fun sts d => parse bf [pf0, pf1] d 1 sts) [s0, s]
      = (chunks.foldlM (fun t d => chParse1 bf pf1 d t) s).map (fun x => [s0, x]) := by
  intro chunks
  induction chunks with
  | nil => intro s; rfl
  | cons c cs ih =>
    intro s
    show (parse bf [pf0, pf1] c 1 [s0, s]) >>= (fun sts => List.foldlM _ sts cs)
      = ((chParse1 bf pf1 c s) >>= (fun t => List.foldlM _ t cs)).map _
    rw [parse_two_1 bf pf0 pf1 c s0 s h0]
    cases h : chParse1 bf pf1 c s with
    | error e => rfl
    | ok s' =>
      simp only [eMap_ok, eBind_ok]
      exact ih s'

theorem foldlM_li_parse_one (bf : List BField) (ch : Nat) :
    ∀ (chunks : List (List Nat)) (s : ChState),
    chunks.foldlM (fun sts d => li_parse bf d ch sts) [s]
      = (chunks.foldlM (fun t d => chFeed bf d t) s).map (fun x => [x]) := by
  intro chunks
  induction chunks with
  | nil => intro s; rfl
  | cons c cs ih =>
    intro s
    show (li_parse bf c ch [s]) >>= (fun sts => List.foldlM _ sts cs)
      = ((chFeed bf c s) >>= (fun t => List.foldlM _ t cs)).map _
    rw [li_parse_one]
    cases h : chFeed bf c s with
    | error e => rfl
    | ok s' =>
      simp only [eMap_ok, eBind_ok]
      exact ih s'

theorem foldlM_li_parse_two_0 (bf : List BField) (s1 : ChState) :
    ∀ (chunks : List (List Nat)) (s : ChState),
    chunks.foldlM (fun sts d => li_parse bf d 0 sts) [s, s1]
      = (chunks.foldlM (fun t d => chFeed bf d t) s).map (fun x => [x, s1]) := by
  intro chunks
  induction chunks with
  | nil => intro s; rfl
  | cons c cs ih =>
    intro s
    show (li_parse bf c 0 [s, s1]) >>= (fun sts => List.foldlM _ sts cs)
      = ((chFeed bf c s) >>= (fun t => List.foldlM _ t cs)).map _
    rw [li_parse_two_0]
    cases h : chFeed bf c s with
    | error e => rfl
    | ok s' =>
      simp only [eMap_ok, eBind_ok]
      exact ih s'

theorem foldlM_li_parse_two_1 (bf : List BField) (s0 : ChState) :
    ∀ (chunks : List (List Nat)) (s : ChState),
    chunks.foldlM (fun sts d => li_parse bf d 1 sts) [s0, s]
      = (chunks.foldlM (fun t d => chFeed bf d t) s).map (fun x => [s0, x]) := by
  intro chunks
  induction chunks with
  | nil => intro s; rfl
  | cons c cs ih =>
    intro s
    show (li_parse bf c 1 [s0, s]) >>= (fun sts => List.foldlM _ sts cs)
      = ((chFeed bf c s) >>= (fun t => List.foldlM _ t cs)).map _
    rw [li_parse_two_1]
    cases h : chFeed bf c s with
    | error e => rfl
    | ok s' =>
      simp only [eMap_ok, eBind_ok]
      exact ih s'

/-- C1.  Chunking invariance of the streaming decoder: over any
non-empty layout whose fields are literal-free (and well-formed: width
at least 1, float widths 32/64, no reserved type), for either channel of
a fresh one- or two-channel parser, feeding a byte sequence as any
non-empty sequence of chunks — through the raw `_parse` or through the
processing `parse` — produces exactly the same result (full per-channel
states: completed raw records, processed records, residual cache, and
even the error, if processing fails) as feeding the whole sequence in a
single call; and the single call leaves the fed channel stuck with fewer
residual bits than the next field's width, so no record is emitted from
the leftover bits, which stay in the residual cache. -/
theorem c1_chunking_invariance (bf : List BField) (pfs : List ProcFmt)
    (hbf : bf ≠ []) (hgbf : GoodFmt bf)
    (nch : Nat) (hn : nch = 1 ∨ nch = 2) (hpfs : pfs.length = nch)
    (ch : Nat) (hch : ch = 0 ∨ ch = 1)
    (chunks : List (List Nat)) (hchunks : chunks ≠ []) :
    chunks.foldlM (fun sts d => li_parse bf d ch sts) (initSts nch)
        = li_parse bf chunks.flatten ch (initSts nch)
    ∧ chunks.foldlM (fun sts d => parse bf pfs d ch sts) (initSts nch)
        = parse bf pfs chunks.flatten ch (initSts nch)
    ∧ (∀ sts', li_parse bf chunks.flatten ch (initSts nch) = .ok sts' →
        ∃ i fd rest, chidxOf ch nch = some i
          ∧ (sts'.getD i initCh).currfmt = fd :: rest
          ∧ (sts'.getD i initCh).dcache.length < fd.width) := by
  have hgf0 : GoodFmt initCh.currfmt := goodFmt_nil
  have hrec0 : initCh.records = [] := rfl
  obtain ⟨s1, hfs1, -, ⟨fd, rest, hc, hw⟩, -⟩ :=
    chFeed_good bf hbf hgbf initCh hgf0 chunks.flatten
  rcases hn with rfl | rfl
  · -- one channel (any channel number indexes state 0)
    obtain ⟨pf, rfl⟩ : ∃ pf, pfs = [pf] := by
      cases pfs with
      | nil => cases hpfs
      | cons pf rest =>
        refine ⟨pf, ?_⟩
        simp only [List.length_cons] at hpfs
        rw [List.eq_nil_of_length_eq_zero (by omega : rest.length = 0)]
    refine ⟨?_, ?_, ?_⟩
    · show chunks.foldlM (fun sts d => li_parse bf d ch sts) [initCh] = _
      rw [foldlM_li_parse_one, chFeed_foldlM bf hbf hgbf chunks initCh hchunks hgf0,
        show initSts 1 = [initCh] from rfl, li_parse_one]
    · show chunks.foldlM (fun sts d => parse bf [pf] d ch sts) [initCh] = _
      rw [foldlM_parse_one,
        chParse1_foldlM bf pf hbf hgbf chunks initCh hchunks hgf0 hrec0,
        show initSts 1 = [initCh] from rfl, parse_one]
    · intro sts' h
      rw [show initSts 1 = [initCh] from rfl, li_parse_one, hfs1, eMap_ok] at h
      simp only [Except.ok.injEq] at h
      subst h
      exact ⟨0, fd, rest, chidxOf_one ch, hc, hw⟩
  · -- two channels
    obtain ⟨pf0, pf1, rfl⟩ : ∃ pf0 pf1, pfs = [pf0, pf1] := by
      cases pfs with
      | nil => cases hpfs
      | cons pf0 rest =>
        cases rest with
        | nil => cases hpfs
        | cons pf1 rest2 =>
          refine ⟨pf0, pf1, ?_⟩
          simp only [List.length_cons] at hpfs
          rw [List.eq_nil_of_length_eq_zero (by omega : rest2.length = 0)]
    rcases hch with rfl | rfl
    · refine ⟨?_, ?_, ?_⟩
      · show chunks.foldlM (fun sts d => li_parse bf d 0 sts) [initCh, initCh] = _
        rw [foldlM_li_parse_two_0, chFeed_foldlM bf hbf hgbf chunks initCh hchunks hgf0,
          show initSts 2 = [initCh, initCh] from rfl, li_parse_two_0]
      · show chunks.foldlM (fun sts d => parse bf [pf0, pf1] d 0 sts) [initCh, initCh] = _
        rw [foldlM_parse_two_0 bf pf0 pf1 initCh hrec0,
          chParse1_foldlM bf pf0 hbf hgbf chunks initCh hchunks hgf0 hrec0,
          show initSts 2 = [initCh, initCh] from rfl,
          parse_two_0 bf pf0 pf1 chunks.flatten initCh initCh hrec0]
      · intro sts' h
        rw [show initSts 2 = [initCh, initCh] from rfl, li_parse_two_0, hfs1, eMap_ok] at h
        simp only [Except.ok.injEq] at h
        subst h
        exact ⟨0, fd, rest, rfl, hc, hw⟩
    · refine ⟨?_, ?_, ?_⟩
      · show chunks.foldlM (fun sts d => li_parse bf d 1 sts) [initCh, initCh] = _
        rw [foldlM_li_parse_two_1, chFeed_foldlM bf hbf hgbf chunks initCh hchunks hgf0,
          show initSts 2 = [initCh, initCh] from rfl, li_parse_two_1]
      · show chunks.foldlM (fun sts d => parse bf [pf0, pf1] d 1 sts) [initCh, initCh] = _
        rw [foldlM_parse_two_1 bf pf0 pf1 initCh hrec0,
          chParse1_foldlM bf pf1 hbf hgbf chunks initCh hchunks hgf0 hrec0,
          show initSts 2 = [initCh, initCh] from rfl,
          parse_two_1 bf pf0 pf1 chunks.flatten initCh initCh hrec0]
      · intro sts' h
        rw [show initSts 2 = [initCh, initCh] from rfl, li_parse_two_1, hfs1, eMap_ok] at h
        simp only [Except.ok.injEq] at h
        subst h
        exact ⟨1, fd, rest, rfl, hc, hw⟩

/-- C1 witness: the chunking-invariance theorem applied to the layout
`[u8]` with a trivial processing format, feeding the two bytes `1, 2` as
two single-byte chunks versus one two-byte chunk. -/
theorem c1_chunking_witness :
    (([[1], [2]] : List (List Nat)).foldlM
        (fun sts d => li_parse [⟨.u, 8, none⟩] d 0 sts) (initSts 1)
      = li_parse [⟨.u, 8, none⟩] ([[1], [2]] : List (List Nat)).flatten 0 (initSts 1))
    ∧ (([[1], [2]] : List (List Nat)).foldlM
        (fun sts d => parse [⟨.u, 8, none⟩] [[[]]] d 0 sts) (initSts 1)
      = parse [⟨.u, 8, none⟩] [[[]]] ([[1], [2]] : List (List Nat)).flatten 0 (initSts 1)) := by
  have hg : GoodFmt [⟨.u, 8, none⟩] := by
    intro fd hfd
    simp only [List.mem_singleton] at hfd
    subst hfd
    refine ⟨rfl, by decide, ?_, ?_⟩
    · intro h
      exact absurd h (by decide)
    · intro h
      exact absurd h (by decide)
  have h := c1_chunking_invariance [⟨.u, 8, none⟩] [[[]]] (by decide) hg
    1 (Or.inl rfl) (by decide) 0 (Or.inl rfl) [[1], [2]] (by decide)
  exact ⟨h.1, h.2.1⟩

/-! Round-trip arithmetic and stream-walking lemmas for the file codec. -/

theorem leVal_le8 (n : Nat) (h : n < 2 ^ 64) : leVal (le8 n) = n := by
  simp only [le8, leVal]
  omega

theorem leVal_two (n : Nat) (_h : n < 65536) : leVal [n % 256, n / 256] = n := by
  simp only [leVal]
  omega

theorem rread_exact (chunk post : List Nat) (pos n : Nat) (h : chunk.length = n) :
    rread n ⟨chunk ++ post, pos⟩ = (chunk, ⟨post, pos + n⟩) := by
  unfold rread
  subst h
  simp [List.take_left, List.drop_left]

theorem readCals_exact :
    ∀ (cals : List Nat) (post : List Nat) (pos : Nat),
    (∀ c ∈ cals, c < 2 ^ 64) →
    readCals cals.length ⟨(cals.map le8).flatten ++ post, pos⟩
      = .ok (cals, ⟨post, pos + 8 * cals.length⟩) := by
  intro cals
  induction cals with
  | nil => intro post pos _; simp [readCals]
  | cons c cs ih =>
    intro post pos h
    show readCals (cs.length + 1) _ = _
    unfold readCals
    rw [show ((c :: cs).map le8).flatten ++ post
          = le8 c ++ ((cs.map le8).flatten ++ post) by simp]
    rw [rread_exact (le8 c) _ pos 8 (by simp [le8])]
    dsimp only
    rw [if_pos (by simp [le8] : (le8 c).length = 8)]
    rw [ih post (pos + 8) (fun x hx => h x (List.mem_cons_of_mem c hx))]
    rw [leVal_le8 c (h c (List.mem_cons_self c cs))]
    rw [eBind_ok]
    have harith : pos + 8 + 8 * cs.length = pos + 8 * (c :: cs).length := by
      simp only [List.length_cons]
      omega
    rw [harith]
    rfl

theorem readProcs_exact :
    ∀ (procs : List (List Nat)) (post : List Nat) (pos : Nat),
    (∀ p ∈ procs, p.length < 65536) →
    readProcs procs.length ⟨(procs.map procChunk).flatten ++ post, pos⟩
      = .ok (procs, ⟨post, pos + (procs.map (fun p => p.length + 2)).sum⟩) := by
  intro procs
  induction procs with
  | nil => intro post pos _; simp [readProcs]
  | cons p ps ih =>
    intro post pos h
    show readProcs (ps.length + 1) _ = _
    unfold readProcs
    rw [show ((p :: ps).map procChunk).flatten ++ post
          = [p.length % 256, p.length / 256] ++ (p ++ ((ps.map procChunk).flatten ++ post))
        by simp [procChunk]]
    rw [rread_exact [p.length % 256, p.length / 256] _ pos 2 (by simp)]
    dsimp only
    rw [show unpackH [p.length % 256, p.length / 256] = .ok p.length from by
      unfold unpackH
      rw [if_pos (by simp)]
      rw [leVal_two p.length (h p (List.mem_cons_self p ps))]]
    rw [eBind_ok]
    rw [rread_exact p _ (pos + 2) p.length rfl]
    rw [ih post (pos + 2 + p.length) (fun x hx => h x (List.mem_cons_of_mem p hx))]
    rw [eBind_ok]
    have harith : pos + 2 + p.length + (ps.map (fun q => q.length + 2)).sum
        = pos + ((p :: ps).map (fun q => q.length + 2)).sum := by
      simp only [List.map_cons, List.sum_cons]
      omega
    rw [harith]
    rfl

theorem packB_ok (n : Nat) (h : n < 256) : packB n = .ok [n] := by
  unfold packB; rw [if_pos h]

theorem packH_ok (n : Nat) (h : n < 65536) : packH n = .ok [n % 256, n / 256] := by
  unfold packH; rw [if_pos h]

theorem packQ_ok (n : Nat) (h : n < 2 ^ 64) : packQ n = .ok (le8 n) := by
  unfold packQ; rw [if_pos h]

theorem exMapM_cal (cal : List Nat) (k : Nat) (hk : k ≤ cal.length) :
    exMapM (fun i =>
        match cal.get? i with
        | none => (Except.error RErr.indexError : Except RErr (List Nat))
        | some c => Except.ok (packD c)) (List.range k)
      = .ok ((cal.take k).map packD) := by
  induction k with
  | zero => rfl
  | succ k ih =>
    rw [List.range_succ, exMapM_append, ih (by omega)]
    dsimp only
    have hklt : k < cal.length := by omega
    have hc : cal.get? k = some (cal.get ⟨k, hklt⟩) := List.get?_eq_get hklt
    rw [exMapM_cons, exMapM_nil]
    simp only [hc]
    rw [List.take_succ]
    simp [List.getElem?_eq_getElem hklt, List.get_eq_getElem]
    rw [List.take_succ]
    have hk2 : k < (List.map packD cal).length := by simpa using hklt
    simp [List.getElem?_eq_getElem hk2]

theorem exMapM_proc (procstr : List (List Nat)) (k : Nat) (hk : k ≤ procstr.length)
    (hlen : ∀ p ∈ procstr, p.length < 65536) :
    exMapM (fun i =>
        match procstr.get? i with
        | none => (Except.error RErr.indexError : Except RErr (List Nat))
        | some p => (packH p.length).map (· ++ p)) (List.range k)
      = .ok ((procstr.take k).map procChunk) := by
  induction k with
  | zero => rfl
  | succ k ih =>
    rw [List.range_succ, exMapM_append, ih (by omega)]
    dsimp only
    have hklt : k < procstr.length := by omega
    have hp : procstr.get? k = some (procstr.get ⟨k, hklt⟩) := List.get?_eq_get hklt
    rw [exMapM_cons, exMapM_nil]
    simp only [hp]
    rw [packH_ok _ (hlen _ (List.get_mem procstr k hklt))]
    rw [List.take_succ]
    simp [List.getElem?_eq_getElem hklt, List.get_eq_getElem, procChunk, Except.map]
    rw [List.take_succ]
    have hk2 : k < (List.map procChunk procstr).length := by simpa using hklt
    simp [List.getElem?_eq_getElem hk2, procChunk]

theorem flatten_map_length_const {α : Type} (f : α → List Nat) (c : Nat)
    (l : List α) (hf : ∀ x ∈ l, (f x).length = c) :
    ((l.map f).flatten).length = c * l.length := by
  induction l with
  | nil => simp
  | cons x xs ih =>
    simp only [List.map_cons, List.flatten_cons, List.length_append, List.length_cons]
    rw [hf x (List.mem_cons_self x xs), ih (fun y hy => hf y (List.mem_cons_of_mem x hy))]
    ring

theorem flatten_map_length_procChunk (l : List (List Nat)) :
    ((l.map procChunk).flatten).length = (l.map (fun p => p.length + 2)).sum := by
  induction l with
  | nil => simp
  | cons p ps ih =>
    simp only [List.map_cons, List.flatten_cons, List.length_append, List.sum_cons]
    rw [ih]
    simp [procChunk]

/-! ## The full header byte string and the write/read walk -/

theorem writeHeaderBytes_ok (chs instr instrv tsPat stime : Nat) (cal : List Nat)
    (binstr : List Nat) (procstr : List (List Nat)) (fmtstr hdrstr : List Nat)
    (hchs : chs < 256) (hinstr : instr < 256) (hinstrv : instrv < 65536)
    (hstime : stime < 2 ^ 64) (hncal : nchOf chs ≤ cal.length)
    (hbin : binstr.length < 65536) (hnproc : nchOf chs ≤ procstr.length)
    (hproc : ∀ p ∈ procstr, p.length < 65536)
    (hfmt : fmtstr.length < 65536) (hhdr : hdrstr.length < 65536)
    (htot : (hdrCore chs instr instrv tsPat stime cal binstr procstr fmtstr hdrstr).length
        < 65536) :
    writeHeaderBytes chs instr instrv tsPat stime cal binstr procstr fmtstr hdrstr
      = .ok ([0x4C, 0x49, 0x31]
          ++ [(hdrCore chs instr instrv tsPat stime cal binstr procstr fmtstr hdrstr).length
                % 256,
              (hdrCore chs instr instrv tsPat stime cal binstr procstr fmtstr hdrstr).length
                / 256]
          ++ hdrCore chs instr instrv tsPat stime cal binstr procstr fmtstr hdrstr) := by
  unfold writeHeaderBytes
  rw [packB_ok chs hchs, eBind_ok, packB_ok instr hinstr, eBind_ok,
      packH_ok instrv hinstrv, eBind_ok, packQ_ok stime hstime, eBind_ok,
      exMapM_cal cal (nchOf chs) hncal, eBind_ok,
      packH_ok binstr.length hbin, eBind_ok,
      exMapM_proc procstr (nchOf chs) hnproc hproc, eBind_ok,
      packH_ok fmtstr.length hfmt, eBind_ok,
      packH_ok hdrstr.length hhdr, eBind_ok]
  dsimp only
  rw [show ([chs] ++ [instr] ++ [instrv % 256, instrv / 256] ++ packD tsPat ++ le8 stime
        ++ ((cal.take (nchOf chs)).map packD).flatten
        ++ [binstr.length % 256, binstr.length / 256] ++ binstr
        ++ ((procstr.take (nchOf chs)).map procChunk).flatten
        ++ [fmtstr.length % 256, fmtstr.length / 256] ++ fmtstr
        ++ [hdrstr.length % 256, hdrstr.length / 256] ++ hdrstr)
      = hdrCore chs instr instrv tsPat stime cal binstr procstr fmtstr hdrstr from rfl]
  rw [packH_ok _ htot, eBind_ok]
  rfl

theorem unpackH_two (n : Nat) (h : n < 65536) :
    unpackH [n % 256, n / 256] = .ok n := by
  unfold unpackH
  rw [if_pos (show ([n % 256, n / 256] : List Nat).length = 2 from rfl)]
  exact congrArg Except.ok (leVal_two n h)

theorem readCals_packD (chs : Nat) (cal : List Nat)
    (hcal : ∀ c ∈ cal, c < 2 ^ 64) (hncal : nchOf chs ≤ cal.length)
    (rest : List Nat) (pos : Nat) :
    readCals (nchOf chs) ⟨((cal.take (nchOf chs)).map packD).flatten ++ rest, pos⟩
      = .ok (cal.take (nchOf chs), ⟨rest, pos + 8 * nchOf chs⟩) := by
  have hlc : (cal.take (nchOf chs)).length = nchOf chs := by
    rw [List.length_take]; omega
  have h0 := readCals_exact (cal.take (nchOf chs)) rest pos
      (fun c hc => hcal c (List.mem_of_mem_take hc))
  rw [hlc] at h0
  exact h0

theorem readProcs_take (chs : Nat) (procstr : List (List Nat))
    (hproc : ∀ p ∈ procstr, p.length < 65536) (hnproc : nchOf chs ≤ procstr.length)
    (rest : List Nat) (pos : Nat) :
    readProcs (nchOf chs) ⟨((procstr.take (nchOf chs)).map procChunk).flatten ++ rest, pos⟩
      = .ok (procstr.take (nchOf chs),
          ⟨rest, pos + ((procstr.take (nchOf chs)).map (fun p => p.length + 2)).sum⟩) := by
  have hlc : (procstr.take (nchOf chs)).length = nchOf chs := by
    rw [List.length_take]; omega
  have h0 := readProcs_exact (procstr.take (nchOf chs)) rest pos
      (fun p hp => hproc p (List.mem_of_mem_take hp))
  rw [hlc] at h0
  exact h0

theorem hb20_fields (chs instr instrv tsPat stime : Nat)
    (hinstrv : instrv < 65536) (htspat : tsPat < 2 ^ 64) (hstime : stime < 2 ^ 64) :
    leVal (List.take 1
        ([chs, instr, instrv % 256, instrv / 256] ++ packD tsPat ++ le8 stime)) = chs
  ∧ leVal (List.take 1 (List.drop 1
        ([chs, instr, instrv % 256, instrv / 256] ++ packD tsPat ++ le8 stime))) = instr
  ∧ leVal (List.take 2 (List.drop 2
        ([chs, instr, instrv % 256, instrv / 256] ++ packD tsPat ++ le8 stime))) = instrv
  ∧ leVal (List.take 8 (List.drop 4
        ([chs, instr, instrv % 256, instrv / 256] ++ packD tsPat ++ le8 stime))) = tsPat
  ∧ leVal (List.take 8 (List.drop 12
        ([chs, instr, instrv % 256, instrv / 256] ++ packD tsPat ++ le8 stime))) = stime := by
  refine ⟨?_, ?_, ?_, ?_, ?_⟩
  · show leVal [chs] = chs
    simp [leVal]
  · show leVal [instr] = instr
    simp [leVal]
  · show leVal [instrv % 256, instrv / 256] = instrv
    exact leVal_two instrv hinstrv
  · show leVal (le8 tsPat) = tsPat
    exact leVal_le8 tsPat htspat
  · show leVal (le8 stime) = stime
    exact leVal_le8 stime hstime

theorem hdrCore_length (chs instr instrv tsPat stime : Nat) (cal : List Nat)
    (binstr : List Nat) (procstr : List (List Nat)) (fmtstr hdrstr : List Nat)
    (hncal : nchOf chs ≤ cal.length) ( _hnproc : nchOf chs ≤ procstr.length) :
    (hdrCore chs instr instrv tsPat stime cal binstr procstr fmtstr hdrstr).length
      = 20 + 8 * nchOf chs + 2 + binstr.length
        + ((procstr.take (nchOf chs)).map (fun p => p.length + 2)).sum
        + 2 + fmtstr.length + 2 + hdrstr.length := by
  unfold hdrCore
  simp only [List.length_append]
  rw [flatten_map_length_const packD 8 (cal.take (nchOf chs))
        (fun c _ => by simp [packD, le8]),
      flatten_map_length_procChunk]
  simp [packD, le8, List.length_take]
  omega

theorem readHeader_writer_layout
    (chs instr instrv tsPat stime : Nat) (cal : List Nat) (binstr : List Nat)
    (procstr : List (List Nat)) (fmtstr hdrstr post : List Nat) (L1 : Nat)
    (hinstrv : instrv < 65536) (htspat : tsPat < 2 ^ 64) (hstime : stime < 2 ^ 64)
    (hcal : ∀ c ∈ cal, c < 2 ^ 64) (hncal : nchOf chs ≤ cal.length)
    (hbin : binstr.length < 65536) (hnproc : nchOf chs ≤ procstr.length)
    (hproc : ∀ p ∈ procstr, p.length < 65536)
    (hfmt : fmtstr.length < 65536) (hhdr : hdrstr.length < 65536)
    (hL : L1 < 65536) :
    readHeader ([0x4C, 0x49, 0x31] ++ [L1 % 256, L1 / 256]
        ++ hdrCore chs instr instrv tsPat stime cal binstr procstr fmtstr hdrstr ++ post)
      = if (hdrCore chs instr instrv tsPat stime cal binstr procstr fmtstr hdrstr).length
            = L1 then
          .ok (⟨chs, instr, instrv, tsPat, stime, nchOf chs, cal.take (nchOf chs),
                binstr, procstr.take (nchOf chs), fmtstr, hdrstr⟩,
            (hdrCore chs instr instrv tsPat stime cal binstr procstr fmtstr hdrstr).length
              + 5)
        else .error .badLength := by
  have hf := hb20_fields chs instr instrv tsPat stime hinstrv htspat hstime
  have hassoc : ([0x4C, 0x49, 0x31] : List Nat) ++ [L1 % 256, L1 / 256]
        ++ hdrCore chs instr instrv tsPat stime cal binstr procstr fmtstr hdrstr ++ post
      = [0x4C, 0x49] ++ ([0x31] ++ ([L1 % 256, L1 / 256]
        ++ (([chs, instr, instrv % 256, instrv / 256] ++ packD tsPat ++ le8 stime)
        ++ (((cal.take (nchOf chs)).map packD).flatten
        ++ ([binstr.length % 256, binstr.length / 256]
        ++ (binstr
        ++ (((procstr.take (nchOf chs)).map procChunk).flatten
        ++ ([fmtstr.length % 256, fmtstr.length / 256]
        ++ (fmtstr
        ++ ([hdrstr.length % 256, hdrstr.length / 256]
        ++ (hdrstr ++ post))))))))))) := by
    simp [hdrCore]
  rw [hassoc]
  unfold readHeader
  try dsimp only
  rw [rread_exact [0x4C, 0x49] _ 0 2 rfl]
  try dsimp only
  rw [if_neg (by decide : ¬(([0x4C, 0x49] : List Nat) ≠ [0x4C, 0x49]))]
  rw [rread_exact [0x31] _ _ 1 rfl]
  try dsimp only
  rw [if_neg (by decide : ¬(([0x31] : List Nat) ≠ [0x31]))]
  rw [rread_exact [L1 % 256, L1 / 256] _ _ 2 rfl]
  try dsimp only
  rw [unpackH_two L1 hL, eBind_ok]
  try dsimp only
  rw [rread_exact ([chs, instr, instrv % 256, instrv / 256] ++ packD tsPat ++ le8 stime)
      _ _ 20 (by simp [packD, le8])]
  try dsimp only
  rw [if_pos (show ([chs, instr, instrv % 256, instrv / 256] ++ packD tsPat
      ++ le8 stime).length = 20 by simp [packD, le8])]
  try dsimp only
  rw [hf.1, hf.2.1, hf.2.2.1, hf.2.2.2.1, hf.2.2.2.2]
  rw [readCals_packD chs cal hcal hncal, eBind_ok]
  try dsimp only
  rw [rread_exact [binstr.length % 256, binstr.length / 256] _ _ 2 rfl]
  try dsimp only
  rw [unpackH_two binstr.length hbin, eBind_ok]
  try dsimp only
  rw [rread_exact binstr _ _ binstr.length rfl]
  try dsimp only
  rw [readProcs_take chs procstr hproc hnproc, eBind_ok]
  try dsimp only
  rw [rread_exact [fmtstr.length % 256, fmtstr.length / 256] _ _ 2 rfl]
  try dsimp only
  rw [unpackH_two fmtstr.length hfmt, eBind_ok]
  try dsimp only
  rw [rread_exact fmtstr _ _ fmtstr.length rfl]
  try dsimp only
  rw [rread_exact [hdrstr.length % 256, hdrstr.length / 256] _ _ 2 rfl]
  try dsimp only
  rw [unpackH_two hdrstr.length hhdr, eBind_ok]
  try dsimp only
  rw [rread_exact hdrstr post _ hdrstr.length rfl]
  try dsimp only
  have hcl := hdrCore_length chs instr instrv tsPat stime cal binstr procstr
      fmtstr hdrstr hncal hnproc
  by_cases hPL :
      (hdrCore chs instr instrv tsPat stime cal binstr procstr fmtstr hdrstr).length = L1
  · rw [if_pos hPL, if_neg (by omega)]
    exact congrArg Except.ok (congrArg (Prod.mk _) (by omega))
  · rw [if_neg hPL, if_pos (by omega)]
    rfl

/-! ## Claim C5 — the concrete signed-decode scenario -/

/-- C5.  With layout string `"<s32"` and the 12-byte input
`00 00 00 00 ff ff ff ff 00 11 22 33` fed on one channel, `_parse`
produces exactly the raw records `[[0], [-1], [0x33221100]]`: 32-bit
fields are assembled little-endian and the signed type decodes as two's
complement. -/
theorem c5_s32_concrete_decode :
    runRawScenario "<s32".toList
        [0x00, 0x00, 0x00, 0x00, 0xff, 0xff, 0xff, 0xff, 0x00, 0x11, 0x22, 0x33]
      = .ok [[.i 0], [.i (-1)], [.i 0x33221100]] := by
  decide

/-! ## Claim C6 — the concrete processing scenario -/

attribute [local semireducible] Rat.add Rat.sub Rat.mul Rat.inv in
/-- C6.  With layout `"<s32:f32"`, processing string `"+1+1-2:-1-1+2"` and
data encoding the record `(1, -1.0)` (little-endian s32 then IEEE-754
single), the full pipeline produces the processed record `(1, -1.0)`:
each field's operation list is folded left-to-right over the raw value. -/
theorem c6_processing_concrete :
    runLogScenario "<s32:f32".toList "+1+1-2:-1-1+2".toList 1
        [[0x01, 0x00, 0x00, 0x00, 0x00, 0x00, 0x80, 0xBF]]
      = .ok [[.i 1, .q (-1)]] := by
  decide

/-! ## Claim C2 — resynchronization on literal mismatch

The source guard is `if not lit or val == lit` (line 527): a literal of
`0` is falsy in Python, so a zero literal can never fail to match.  The
resynchronization behaviour claimed holds exactly for *non-zero*
literals. -/

/-- C2 counterexample.  A field carrying the literal `0` (layout string
`"u4,0"`) decodes the byte `0x57` as the two accepted records
`[[7], [5]]` — the mismatching values 7 and 5 are *kept*, no in-progress
record is discarded and no one-byte resynchronization occurs, contrary
to the claim read at literal value 0. -/
theorem c2_zero_literal_counterexample :
    runRawScenario "u4,0".toList [0x57] = .ok [[.i 7], [.i 5]] := by
  decide

/-- C2 (amended: literal non-zero).  If the current field carries a
non-zero literal, enough cached bits are available, and the decoded
value does not equal the literal, then the loop iteration discards the
in-progress record entirely, clears the field cursor (which restarts the
layout from the top on the next iteration) and removes exactly one byte
— 8 bits, not the field's width — from the residual cache; completed
records are untouched. -/
theorem c2_resync_on_nonzero_literal_mismatch
    (bf : List BField) (st : ChState) (fd : BField) (rest : List BField)
    (l : Nat) (v : PVal)
    (hfmt : st.currfmt = fd :: rest)
    (hlit : fd.lit = some l) (hl : l ≠ 0)
    (hw : fd.width ≤ st.dcache.length)
    (hdec : decodeField fd.typ fd.width ((st.dcache.take fd.width).reverse) = .ok v)
    (hne : pyEqNat v l = false) :
    parseStep bf st
      = .cont { st with currecord := [], currfmt := [], dcache := st.dcache.drop 8 } := by
  have hne' : ¬ st.currfmt.isEmpty := by simp [hfmt]
  unfold parseStep doReset
  rw [if_neg hne']
  unfold stepCore
  rw [hfmt]
  dsimp only
  rw [if_neg (by omega : ¬ st.dcache.length < fd.width)]
  rw [hdec]
  dsimp only
  have hlitOk : litOk fd.lit v = false := by
    rw [hlit]
    simp [litOk, hl, hne]
  rw [hlitOk]
  simp

/-- C2 witness: the amended theorem applied at a concrete state — field
`u4` with literal 3, cache holding the bits of byte `0x57` (whose first
field decodes to 7 ≠ 3), and a non-empty in-progress record. -/
theorem c2_resync_witness :
    parseStep []
        { dcache := bytesToBits [0x57], currfmt := [⟨.u, 4, some 3⟩],
          currecord := [.i 9], records := [[.i 1]], processed := [] }
      = .cont { dcache := (bytesToBits [0x57]).drop 8, currfmt := [],
                currecord := [], records := [[.i 1]], processed := [] } :=
  c2_resync_on_nonzero_literal_mismatch [] _ ⟨.u, 4, some 3⟩ [] 3 (.i 7)
    (by decide) (by decide) (by decide) (by decide) (by decide) (by decide)

/-! ## Claim C9 — a zero literal never triggers resynchronization -/

/-- C9.  A field whose literal is `0` is treated exactly like a
literal-free field: whatever value decodes (matching or not), the field
is accepted — the value is appended to the in-progress record unless the
field is padding, the cursor advances, and exactly the field's bits are
consumed; the in-progress record is never discarded and the one-byte
resynchronization never fires. -/
theorem c9_zero_literal_always_accepts
    (bf : List BField) (st : ChState) (fd : BField) (rest : List BField)
    (v : PVal)
    (hfmt : st.currfmt = fd :: rest)
    (hlit : fd.lit = some 0)
    (hw : fd.width ≤ st.dcache.length)
    (hdec : decodeField fd.typ fd.width ((st.dcache.take fd.width).reverse) = .ok v) :
    parseStep bf st
      = .cont { st with
                currecord := if fd.typ = .p then st.currecord else st.currecord ++ [v]
              , currfmt := rest
              , dcache := st.dcache.drop fd.width } := by
  have hne' : ¬ st.currfmt.isEmpty := by simp [hfmt]
  unfold parseStep doReset
  rw [if_neg hne']
  unfold stepCore
  rw [hfmt]
  dsimp only
  rw [if_neg (by omega : ¬ st.dcache.length < fd.width)]
  rw [hdec]
  dsimp only
  have hlitOk : litOk fd.lit v = true := by rw [hlit]; simp [litOk]
  rw [hlitOk]
  simp

/-- C9 witness: the theorem applied at a concrete state — field `u4`
with literal 0 and cache bits of byte `0x57`, whose decoded value 7 ≠ 0
is nevertheless accepted and appended. -/
theorem c9_zero_literal_witness :
    parseStep []
        { dcache := bytesToBits [0x57], currfmt := [⟨.u, 4, some 0⟩],
          currecord := [], records := [], processed := [] }
      = .cont { dcache := (bytesToBits [0x57]).drop 4, currfmt := [],
                currecord := [.i 7], records := [], processed := [] } :=
  c9_zero_literal_always_accepts [] _ ⟨.u, 4, some 0⟩ [] (.i 7)
    (by decide) (by decide) (by decide) (by decide)

/-! ## Claim C7 — float bit widths are checked at decode time, not at
layout-parse time -/

/-- C7 counterexample.  `_parse_binstr` itself *accepts* the layout
string `"f16"` (the float-width restriction does not appear in the
layout parser), contrary to the claim that the parse fails with a
`FormatError`. -/
theorem c7_f16_parses_counterexample :
    _parse_binstr "f16".toList = .ok [⟨.f, 16, none⟩] := by
  decide

/-- C7 (amended).  A float clause of width other than 32/64 passes the
layout-string parser (`"f16"` parses to a 16-bit float field); the
`InvalidFormatException` is raised only by `_parse` when data supplies
enough bits to decode such a field. -/
theorem c7_float_width_error_at_decode_time :
    _parse_binstr "f16".toList = .ok [⟨.f, 16, none⟩] ∧
    ∀ (bf : List BField) (st : ChState) (fd : BField) (rest : List BField),
      st.currfmt = fd :: rest → fd.typ = .f → fd.width ≠ 32 → fd.width ≠ 64 →
      fd.width ≤ st.dcache.length →
      parseStep bf st = .err .floatWidth := by
  refine ⟨by decide, ?_⟩
  intro bf st fd rest hfmt htyp h32 h64 hw
  have hne' : ¬ st.currfmt.isEmpty := by simp [hfmt]
  unfold parseStep doReset
  rw [if_neg hne']
  unfold stepCore
  rw [hfmt]
  dsimp only
  rw [if_neg (by omega : ¬ st.dcache.length < fd.width)]
  have hdec : decodeField fd.typ fd.width ((st.dcache.take fd.width).reverse)
      = .error .floatWidth := by
    rw [htyp]
    unfold decodeField
    rw [if_neg h32, if_neg h64]
  rw [hdec]

/-- C7 witness: the amended theorem applied to the parsed `"f16"` layout
with 16 cached bits. -/
theorem c7_float_width_witness :
    parseStep [⟨.f, 16, none⟩]
        { dcache := bytesToBits [0x00, 0x00], currfmt := [⟨.f, 16, none⟩],
          currecord := [], records := [], processed := [] }
      = .err .floatWidth :=
  c7_float_width_error_at_decode_time.2 [⟨.f, 16, none⟩] _ ⟨.f, 16, none⟩ []
    (by decide) (by decide) (by decide) (by decide) (by decide)

/-! ## Claim C8 — processing-expression parse errors -/

/-- C8 counterexample.  The processing string `"q9"` contains only the
unrecognized operator token `q` (and a stray digit); `re.findall`
silently skips both and `_parse_procstr` *succeeds* with an empty
operation list for the clause, contrary to the claim that it fails with
a `FormatError`. -/
theorem c8_unknown_op_skipped_counterexample :
    _parse_procstr "q9".toList 1 = .ok [[]] := by
  decide

/-- `exMapM` of a function whose only error is `e` either fails with `e`
or succeeds. -/
theorem exMapM_total {ε α β : Type} (f : α → Except ε β) (e : ε)
    (hall : ∀ x, f x = .error e ∨ ∃ b, f x = .ok b) :
    ∀ l : List α, exMapM f l = .error e ∨ ∃ bs, exMapM f l = .ok bs := by
  intro l
  induction l with
  | nil => exact .inr ⟨[], rfl⟩
  | cons x xs ih =>
    rw [exMapM_cons]
    rcases hall x with hx | ⟨b, hx⟩
    · rw [hx]
      exact .inl rfl
    · rw [hx]
      rcases ih with hxs | ⟨bs, hxs⟩
      · rw [hxs]
        exact .inl rfl
      · rw [hxs]
        exact .inr ⟨b :: bs, rfl⟩

/-- If a function whose only error is `e` fails on a member of the list,
`exMapM` fails with `e`. -/
theorem exMapM_error_of_mem {ε α β : Type} (f : α → Except ε β) (e : ε)
    (hall : ∀ x, f x = .error e ∨ ∃ b, f x = .ok b) :
    ∀ l : List α, (∃ x ∈ l, f x = .error e) → exMapM f l = .error e := by
  intro l
  induction l with
  | nil =>
    rintro ⟨x, hx, _⟩
    cases hx
  | cons y ys ih =>
    rintro ⟨x, hx, hfx⟩
    rw [exMapM_cons]
    rcases hall y with hy | ⟨b, hy⟩
    · rw [hy]
    · rw [hy]
      have hxs : x ∈ ys := by
        rcases List.mem_cons.mp hx with h1 | h1
        · subst h1
          rw [hfx] at hy
          exact Except.noConfusion hy
        · exact h1
      rw [ih ⟨x, hxs, hfx⟩]

/-- The only error `_eval_lit` raises is the bad-literal
`InvalidFormatException` of line 328. -/
theorem _eval_lit_cases (cal : Rat) (lit : List Char) :
    _eval_lit cal lit = .error .badLiteral ∨ ∃ v, _eval_lit cal lit = .ok v := by
  unfold _eval_lit
  repeat' split
  all_goals first
    | exact .inl rfl
    | exact .inr ⟨_, rfl⟩

/-- One scanned pair of `_parse_procstr` either evaluates or fails with
the bad-literal error. -/
theorem procPair_cases (cal : Rat) (oc : Char × List Char) :
    (_eval_lit cal oc.2).map (fun v => (oc.1, v)) = .error PErr.badLiteral
  ∨ ∃ b, (_eval_lit cal oc.2).map (fun v => (oc.1, v)) = .ok b := by
  rcases _eval_lit_cases cal oc.2 with h | ⟨v, h⟩
  · exact .inl (by rw [h]; rfl)
  · exact .inr ⟨(oc.1, v), by rw [h]; rfl⟩

/-- Every pair the `re.findall` scan produces carries an operator
character of the documented class `[*/\+\-&s\^fc]`. -/
theorem procScanAux_ops (fuel : Nat) :
    ∀ (l : List Char) (oc : Char × List Char),
      oc ∈ procScanAux fuel l → isOpChar oc.1 = true := by
  induction fuel with
  | zero =>
    intro l oc h
    simp [procScanAux] at h
  | succ n ih =>
    intro l oc h
    cases l with
    | nil => simp [procScanAux] at h
    | cons c rest =>
      simp only [procScanAux] at h
      by_cases hc : isOpChar c = true
      · rw [if_pos hc] at h
        rcases List.mem_cons.mp h with h1 | h1
        · rw [h1]
          exact hc
        · exact ih _ _ h1
      · rw [if_neg hc] at h
        exact ih _ _ h

/-- C8 (amended, universal).  Over every processing string: an operand
token the scan matched whose literal parses as neither `int(lit, 0)`,
`float(lit)` nor the calibration token `C` makes `_parse_procstr` fail
with the `FormatError` (`InvalidFormatException`, line 328); every pair
of every scanned operation list carries an operator character from the
documented set `{*, /, +, -, &, s, ^, f, c}`; and a leading character
outside that set is silently skipped by `re.findall` — the scan of the
rest is unchanged and the dropped character leaves no trace — so
unknown operator tokens are NOT rejected, contrary to the original
claim (the counterexample shows `"q9"` parsing to one empty operation
list with no error). -/
theorem c8_bad_literal_errors_unknown_op_skipped :
    (∀ (s : List Char) (cal : Rat),
      (∃ clause ∈ splitSep ':' s, ∃ oc ∈ procScan clause,
          _eval_lit cal oc.2 = .error .badLiteral) →
        _parse_procstr s cal = .error .badLiteral)
  ∧ (∀ (l : List Char) (oc : Char × List Char),
      oc ∈ procScan l → isOpChar oc.1 = true)
  ∧ (∀ (c : Char) (l : List Char), isOpChar c = false →
      procScan (c :: l) = procScan l) := by
  refine ⟨?_, ?_, ?_⟩
  · intro s cal h
    rcases h with ⟨clause, hclause, oc, hoc, hbad⟩
    unfold _parse_procstr
    refine exMapM_error_of_mem _ _ (fun cl => ?_) _ ⟨clause, hclause, ?_⟩
    · exact exMapM_total _ _ (procPair_cases cal) (procScan cl)
    · refine exMapM_error_of_mem _ _ (procPair_cases cal) _ ⟨oc, hoc, ?_⟩
      rw [hbad]
      rfl
  · intro l oc h
    exact procScanAux_ops l.length l oc h
  · intro c l h
    show procScanAux (c :: l).length (c :: l) = procScanAux l.length l
    rw [List.length_cons]
    simp only [procScanAux]
    rw [if_neg (by simp [h])]

/-- C8 witness: the universal theorem applied at the unparseable literal
`"+x"` (the scan matches `+` with operand `x`, which parses as nothing),
at a scanned pair of `"*1"`, and at the skipped character `q` of
`"q9+1"`. -/
theorem c8_universality_witness :
    _parse_procstr "+x".toList 1 = .error .badLiteral
  ∧ isOpChar '*' = true
  ∧ procScan ('q' :: "9+1".toList) = procScan "9+1".toList := by
  refine ⟨c8_bad_literal_errors_unknown_op_skipped.1 "+x".toList 1 (by decide),
    c8_bad_literal_errors_unknown_op_skipped.2.1 "*1".toList ('*', ['1']) (by decide),
    c8_bad_literal_errors_unknown_op_skipped.2.2 'q' "9+1".toList (by decide)⟩

/-! ## Claim C3 — the write/read round-trip of the LI header -/

/-- C3.  For every valid argument set the writer emits, in one shot, the
magic `'LI1'`, a `u16` total header length, the little-endian `"<BBHdQ"`
block, one calibration double per active channel, and the four
`u16`-length-prefixed format strings; parsing that file's header back
recovers every written value (with the calibration and processing lists
truncated to the active channels).  The reader's constructor nevertheless
fails on this well-formed file: line 127 of `dataparser.py` reads the
never-assigned attributes `self.ch1`/`self.ch2`, so
`LIDataFileReader.__init__` raises `AttributeError` after the header has
been parsed successfully — the claimed round-trip is broken by that bug,
not by the header codec. -/
theorem c3_header_roundtrip_reader_crash
    (chs instr instrv tsPat stime : Nat) (cal : List Nat) (binstr : List Nat)
    (procstr : List (List Nat)) (fmtstr hdrstr post : List Nat)
    (hchs : chs < 256) (hinstr : instr < 256) (hinstrv : instrv < 65536)
    (htspat : tsPat < 2 ^ 64) (hstime : stime < 2 ^ 64)
    (hcal : ∀ c ∈ cal, c < 2 ^ 64) (hncal : nchOf chs ≤ cal.length)
    (hbin : binstr.length < 65536) (hnproc : nchOf chs ≤ procstr.length)
    (hproc : ∀ p ∈ procstr, p.length < 65536)
    (hfmt : fmtstr.length < 65536) (hhdr : hdrstr.length < 65536)
    (htot : (hdrCore chs instr instrv tsPat stime cal binstr procstr fmtstr hdrstr).length
        < 65536) :
    ∃ out,
      writeHeaderBytes chs instr instrv tsPat stime cal binstr procstr fmtstr hdrstr
        = .ok out
      ∧ readHeader (out ++ post)
          = .ok (⟨chs, instr, instrv, tsPat, stime, nchOf chs, cal.take (nchOf chs),
                binstr, procstr.take (nchOf chs), fmtstr, hdrstr⟩,
              (hdrCore chs instr instrv tsPat stime cal binstr procstr fmtstr hdrstr).length
                + 5)
      ∧ readerInit (out ++ post) = .error .attrError := by
  have hw := writeHeaderBytes_ok chs instr instrv tsPat stime cal binstr procstr
      fmtstr hdrstr hchs hinstr hinstrv hstime hncal hbin hnproc hproc hfmt hhdr htot
  have hr := readHeader_writer_layout chs instr instrv tsPat stime cal binstr procstr
      fmtstr hdrstr post _ hinstrv htspat hstime hcal hncal hbin hnproc hproc hfmt hhdr htot
  rw [if_pos rfl] at hr
  refine ⟨_, hw, hr, ?_⟩
  unfold readerInit
  rw [hr, eBind_ok]
  rfl

/-- C3 witness: a concrete two-channel file round-trips through
`writeHeaderBytes` and `readHeader`, and `readerInit` still raises. -/
theorem c3_header_roundtrip_witness :
    ∃ out,
      writeHeaderBytes 3 1 258 42 7 [11, 12] [60, 115, 51, 50]
          [[43, 49], [45, 50]] [37, 100] [65] = .ok out
      ∧ readHeader (out ++ [])
          = .ok (⟨3, 1, 258, 42, 7, nchOf 3, List.take (nchOf 3) [11, 12],
                [60, 115, 51, 50], List.take (nchOf 3) [[43, 49], [45, 50]],
                [37, 100], [65]⟩,
              (hdrCore 3 1 258 42 7 [11, 12] [60, 115, 51, 50]
                  [[43, 49], [45, 50]] [37, 100] [65]).length + 5)
      ∧ readerInit (out ++ []) = .error .attrError :=
  c3_header_roundtrip_reader_crash 3 1 258 42 7 [11, 12] [60, 115, 51, 50]
    [[43, 49], [45, 50]] [37, 100] [65] [] (by decide) (by decide) (by decide)
    (by decide) (by decide) (by decide) (by decide) (by decide) (by decide)
    (by decide) (by decide) (by decide) (by decide)

/-! ## Claim C4 — header validation on open -/

/-- C4.  Header validation of `LIDataFileReader.__init__`: a file whose
first two bytes are not `'LI'` fails with the Bad Magic error; one with
the right magic but a version byte other than `'1'` fails with the
distinct Unknown File Version error; and on a writer-shaped file whose
`u16` length prefix is `L1`, the reader errs with the Incorrect File
Header Length error exactly when `L1` differs from the real header
length — when magic, version and declared length are all consistent it
returns the parsed header, raising none of the three errors. -/
theorem c4_header_validation :
    (∀ bytes : List Nat, List.take 2 bytes ≠ [0x4C, 0x49] →
        readHeader bytes = .error .badMagic)
  ∧ (∀ bytes : List Nat, List.take 2 bytes = [0x4C, 0x49] →
      List.take 1 (List.drop 2 bytes) ≠ [0x31] →
        readHeader bytes = .error .badVersion)
  ∧ (∀ (chs instr instrv tsPat stime : Nat) (cal binstr : List Nat)
        (procstr : List (List Nat)) (fmtstr hdrstr post : List Nat) (L1 : Nat),
      instrv < 65536 → tsPat < 2 ^ 64 → stime < 2 ^ 64 →
      (∀ c ∈ cal, c < 2 ^ 64) → nchOf chs ≤ cal.length →
      binstr.length < 65536 → nchOf chs ≤ procstr.length →
      (∀ p ∈ procstr, p.length < 65536) →
      fmtstr.length < 65536 → hdrstr.length < 65536 → L1 < 65536 →
      readHeader ([0x4C, 0x49, 0x31] ++ [L1 % 256, L1 / 256]
          ++ hdrCore chs instr instrv tsPat stime cal binstr procstr fmtstr hdrstr ++ post)
        = if (hdrCore chs instr instrv tsPat stime cal binstr procstr fmtstr hdrstr).length
              = L1 then
            .ok (⟨chs, instr, instrv, tsPat, stime, nchOf chs, cal.take (nchOf chs),
                  binstr, procstr.take (nchOf chs), fmtstr, hdrstr⟩,
              (hdrCore chs instr instrv tsPat stime cal binstr procstr
                  fmtstr hdrstr).length + 5)
          else .error .badLength) := by
  refine ⟨?_, ?_, ?_⟩
  · intro bytes h
    unfold readHeader
    dsimp only
    rw [show rread 2 ⟨bytes, 0⟩
        = (List.take 2 bytes, ⟨List.drop 2 bytes, 0 + (List.take 2 bytes).length⟩)
      from rfl]
    dsimp only
    rw [if_pos h]
    rfl
  · intro bytes h1 h2
    unfold readHeader
    dsimp only
    rw [show rread 2 ⟨bytes, 0⟩
        = (List.take 2 bytes, ⟨List.drop 2 bytes, 0 + (List.take 2 bytes).length⟩)
      from rfl]
    dsimp only
    rw [if_neg (fun hc => hc h1)]
    rw [show rread 1 (⟨List.drop 2 bytes, 0 + (List.take 2 bytes).length⟩ : RStream)
        = (List.take 1 (List.drop 2 bytes),
           ⟨List.drop 1 (List.drop 2 bytes),
            0 + (List.take 2 bytes).length + (List.take 1 (List.drop 2 bytes)).length⟩)
      from rfl]
    dsimp only
    rw [if_pos h2]
    rfl
  · intro chs instr instrv tsPat stime cal binstr procstr fmtstr hdrstr post L1
        h1 h2 h3 h4 h5 h6 h7 h8 h9 h10 h11
    exact readHeader_writer_layout chs instr instrv tsPat stime cal binstr procstr
      fmtstr hdrstr post L1 h1 h2 h3 h4 h5 h6 h7 h8 h9 h10 h11

/-- C4 witness: a wrong-magic file, a wrong-version file, a consistent
file (accepted) and a wrong-declared-length file (Incorrect File Header
Length), all concrete. -/
theorem c4_header_validation_witness :
    readHeader [0x00] = .error .badMagic
  ∧ readHeader [0x4C, 0x49, 0x32] = .error .badVersion
  ∧ readHeader ([0x4C, 0x49, 0x31]
        ++ [(hdrCore 1 2 3 4 5 [6] [7] [[8]] [9] [10]).length % 256,
            (hdrCore 1 2 3 4 5 [6] [7] [[8]] [9] [10]).length / 256]
        ++ hdrCore 1 2 3 4 5 [6] [7] [[8]] [9] [10] ++ [])
      = .ok (⟨1, 2, 3, 4, 5, nchOf 1, List.take (nchOf 1) [6], [7],
            List.take (nchOf 1) [[8]], [9], [10]⟩,
          (hdrCore 1 2 3 4 5 [6] [7] [[8]] [9] [10]).length + 5)
  ∧ readHeader ([0x4C, 0x49, 0x31] ++ [77 % 256, 77 / 256]
        ++ hdrCore 1 2 3 4 5 [6] [7] [[8]] [9] [10] ++ [])
      = .error .badLength := by
  refine ⟨c4_header_validation.1 [0x00] (by decide),
    c4_header_validation.2.1 [0x4C, 0x49, 0x32] (by decide) (by decide), ?_, ?_⟩
  · have h := c4_header_validation.2.2 1 2 3 4 5 [6] [7] [[8]] [9] [10] []
        (hdrCore 1 2 3 4 5 [6] [7] [[8]] [9] [10]).length
        (by decide) (by decide) (by decide) (by decide) (by decide) (by decide)
        (by decide) (by decide) (by decide) (by decide) (by decide)
    rw [if_pos rfl] at h
    exact h
  · have h := c4_header_validation.2.2 1 2 3 4 5 [6] [7] [[8]] [9] [10] [] 77
        (by decide) (by decide) (by decide) (by decide) (by decide) (by decide)
        (by decide) (by decide) (by decide) (by decide) (by decide)
    rw [if_neg (by decide)] at h
    exact h

/-! ## Claim C10 — atomicity of add_data -/

/-- C10.  `LIDataFileWriter.add_data` evaluates
`struct.pack("<BH", ch, len(data))` before any write, so a channel
outside `[0, 255]` or a payload of 65536 bytes or more raises
`struct.error` with the file exactly as it was; within range, exactly
the 3-byte `{channel, u16 little-endian length}` header followed by the
payload is appended. -/
theorem c10_add_data_atomicity (file data : List Nat) (ch : Int) :
    (¬(0 ≤ ch ∧ ch < 256 ∧ data.length < 65536) →
        add_data file data ch = (some .structError, file))
  ∧ ((0 ≤ ch ∧ ch < 256 ∧ data.length < 65536) →
        add_data file data ch
          = (none, file ++ [ch.toNat, data.length % 256, data.length / 256] ++ data)) := by
  constructor
  · intro h
    unfold add_data
    rw [if_neg h]
  · intro h
    unfold add_data
    rw [if_pos h]

/-- C10 witness: channel 300 is rejected with the file untouched;
channel 5 with a 2-byte payload appends exactly `[5, 2, 0]` and the
payload. -/
theorem c10_add_data_witness :
    add_data [1] [2] 300 = (some .structError, [1])
  ∧ add_data [1] [2, 3] 5 = (none, [1, 5, 2, 0, 2, 3]) := by
  refine ⟨(c10_add_data_atomicity [1] [2] 300).1 (by decide), ?_⟩
  have h := (c10_add_data_atomicity [1] [2, 3] 5).2 (by decide)
  exact h

end Pymoku
